import Mathlib

/-!
Shallow embedding of the perilib stream-protocol engine
(`StreamProtocol.py`, `StreamParserGenerator.py`, `StreamPacket.py`,
`TLVStreamProtocol.py`, `TextStreamProtocol.py`).

Modelling conventions:
* Python `bytes` / byte lists are `List Nat`; machine integers are `Int`/`Nat`
  with explicit bounds where the `struct` module checks them.
* Python `float` values packed with the `"f"` format are modelled by their
  32-bit little-endian bit pattern (`PyVal.f32`); `struct.pack`/`unpack`
  round-trips exactly on such patterns.
* Python `bytes` and `list` values with the same byte content are identified.
* Fallible Python code (raising exceptions) is modelled with `Except PErr`.
  Only `PErr.protocol` corresponds to `PerilibProtocolException`; the other
  constructors model built-in Python exceptions (`KeyError`, `IndexError`,
  `TypeError`, `struct.error`, `ValueError`), which the parser does not catch.
* Wall-clock time is an abstract `Nat`; `time.time()` is never `0`, so a
  stored start time of `0` means "timer not armed", as in the source.
-/

namespace Perilib

/-- `ParseStatus` constants from `common.py`. -/
inductive ParseStatus
  | IDLE
  | STARTING
  | IN_PROGRESS
  | COMPLETE
  deriving DecidableEq, Repr

/-- The closed set of field type names from `StreamProtocol.types`. -/
inductive FieldType
  | uint8
  | uint16
  | uint32
  | int8
  | int16
  | int32
  | float
  | macaddr
  | uint8aL8v
  | uint8aL16v
  | uint8aGreedy
  | uint8aFixed
  deriving DecidableEq, Repr

/-- A field descriptor `{name, type, width}`; `width` is only meaningful for
`uint8a-fixed` fields. -/
structure Field where
  name : String
  type : FieldType
  width : Nat
  deriving DecidableEq, Repr

/-- A value as stored in the keyed value dictionaries. `bytes` is a Python
`bytes` object and `pylist` a Python `list` of integers: the two are never
equal in Python (`b"\x01" == [1]` is `False`), so they are distinct
constructors here. `unpack_values` builds a `list` for `macaddr` fields
(`[x for x in unpacked[i]]`) while `struct.pack`'s `"6s"` code accepts only
`bytes`. -/
inductive PyVal
  | int (i : Int)
  | bytes (bs : List Nat)
  | pylist (vs : List Nat)
  | f32 (bits : Nat)
  deriving DecidableEq, Repr

/-- One conversion code of a `struct` format string (little-endian, so no
padding); `str n` is the `"ns"` format. -/
inductive FmtItem
  | u8
  | u16
  | u32
  | s8
  | s16
  | s32
  | f32
  | str (n : Nat)
  deriving DecidableEq, Repr

/-- The `{pack_format, expected_length}` record built by
`calculate_packing_info`. -/
structure PackingInfo where
  pack_format : List FmtItem
  expected_length : Nat
  deriving DecidableEq, Repr

/-- Error outcomes. `protocol` is `PerilibProtocolException`; the rest are
built-in Python exceptions that the library never catches. -/
inductive PErr
  | protocol (msg : String)
  | keyError
  | indexError
  | typeError
  | structError
  | valueError
  deriving DecidableEq, Repr

/-- `struct` format codes per field type (the `pack` column of
`StreamProtocol.types`). -/
def typeFmt : FieldType → List FmtItem
  | .uint8 => [.u8]
  | .uint16 => [.u16]
  | .uint32 => [.u32]
  | .int8 => [.s8]
  | .int16 => [.s16]
  | .int32 => [.s32]
  | .float => [.f32]
  | .macaddr => [.str 6]
  | .uint8aL8v => [.u8]
  | .uint8aL16v => [.u16]
  | .uint8aGreedy => []
  | .uint8aFixed => []

/-- Widths per field type (the `width` column of `StreamProtocol.types`). -/
def typeWidth : FieldType → Nat
  | .uint8 => 1
  | .uint16 => 2
  | .uint32 => 4
  | .int8 => 1
  | .int16 => 2
  | .int32 => 4
  | .float => 4
  | .macaddr => 6
  | .uint8aL8v => 1
  | .uint8aL16v => 2
  | .uint8aGreedy => 0
  | .uint8aFixed => 0

/-- Format contribution of one field: the type's own format code, plus the
extra `"%ds"` a `uint8a-fixed` field appends for its explicit width. -/
def fieldItems (f : Field) : List FmtItem :=
  typeFmt f.type ++ (if f.type = .uint8aFixed then [.str f.width] else [])

/-- Length contribution of one field to `expected_length`. -/
def fieldWidth (f : Field) : Nat :=
  typeWidth f.type + (if f.type = .uint8aFixed then f.width else 0)

/-- `StreamProtocol.calculate_packing_info`: one pass over the fields,
appending each field's format codes and summing the widths. -/
def calculate_packing_info : List Field → PackingInfo
  | [] => { pack_format := [], expected_length := 0 }
  | f :: rest =>
    let r := calculate_packing_info rest
    { pack_format := fieldItems f ++ r.pack_format
      expected_length := fieldWidth f + r.expected_length }

/-- Little-endian byte encoding of a natural number in `w` bytes. -/
def toLEBytes : Nat → Nat → List Nat
  | 0, _ => []
  | w + 1, v => v % 256 :: toLEBytes w (v / 256)

/-- Little-endian byte decoding. -/
def fromLEBytes : List Nat → Nat
  | [] => 0
  | b :: rest => b + 256 * fromLEBytes rest

/-- Byte size of one format item (`struct.calcsize` of the single code). -/
def itemSize : FmtItem → Nat
  | .u8 => 1
  | .u16 => 2
  | .u32 => 4
  | .s8 => 1
  | .s16 => 2
  | .s32 => 4
  | .f32 => 4
  | .str n => n

/-- `struct.pack` of a single conversion code: range-checks integers the way
`struct` does, encodes little-endian, pads/truncates `"ns"` strings. -/
def encodeFmt : FmtItem → PyVal → Except PErr (List Nat)
  | .u8, .int i => if 0 ≤ i ∧ i < 256 then .ok (toLEBytes 1 i.toNat) else .error .structError
  | .u16, .int i => if 0 ≤ i ∧ i < 65536 then .ok (toLEBytes 2 i.toNat) else .error .structError
  | .u32, .int i =>
    if 0 ≤ i ∧ i < 4294967296 then .ok (toLEBytes 4 i.toNat) else .error .structError
  | .s8, .int i =>
    if -128 ≤ i ∧ i < 128 then .ok (toLEBytes 1 (i % 256).toNat) else .error .structError
  | .s16, .int i =>
    if -32768 ≤ i ∧ i < 32768 then .ok (toLEBytes 2 (i % 65536).toNat) else .error .structError
  | .s32, .int i =>
    if -2147483648 ≤ i ∧ i < 2147483648 then
      .ok (toLEBytes 4 (i % 4294967296).toNat)
    else .error .structError
  | .f32, .f32 n => if n < 4294967296 then .ok (toLEBytes 4 n) else .error .structError
  | .str n, .bytes bs => .ok (bs.take n ++ List.replicate (n - bs.length) 0)
  | _, _ => .error .structError

/-- `struct.unpack` of a single conversion code applied to exactly
`itemSize` bytes. -/
def decodeOne : FmtItem → List Nat → PyVal
  | .u8, bs => .int (fromLEBytes bs)
  | .u16, bs => .int (fromLEBytes bs)
  | .u32, bs => .int (fromLEBytes bs)
  | .s8, bs =>
    let n := fromLEBytes bs
    if n < 128 then .int n else .int ((n : Int) - 256)
  | .s16, bs =>
    let n := fromLEBytes bs
    if n < 32768 then .int n else .int ((n : Int) - 65536)
  | .s32, bs =>
    let n := fromLEBytes bs
    if n < 2147483648 then .int n else .int ((n : Int) - 4294967296)
  | .f32, bs => .f32 (fromLEBytes bs)
  | .str _, bs => .bytes bs

/-- `struct.pack(fmt, *value_list)`: conversion codes and arguments are
consumed in lockstep; an arity or type mismatch raises `struct.error`. -/
def structPack : List FmtItem → List PyVal → Except PErr (List Nat)
  | [], [] => .ok []
  | it :: fmts, v :: vs =>
    match encodeFmt it v with
    | .error e => .error e
    | .ok bs =>
      match structPack fmts vs with
      | .error e => .error e
      | .ok rest => .ok (bs ++ rest)
  | _, _ => .error .structError

/-- `struct.unpack(fmt, buffer)`: requires the buffer length to equal
`calcsize(fmt)` exactly, otherwise raises `struct.error`. -/
def structUnpack : List FmtItem → List Nat → Except PErr (List PyVal)
  | [], [] => .ok []
  | [], _ :: _ => .error .structError
  | it :: fmts, bs =>
    if bs.length < itemSize it then .error .structError
    else
      match structUnpack fmts (bs.drop (itemSize it)) with
      | .error e => .error e
      | .ok vs => .ok (decodeOne it (bs.take (itemSize it)) :: vs)

/-- Python `bytes(v)`: identity on byte strings, a zero-filled buffer for a
nonnegative integer, `ValueError` for a negative one, `TypeError` otherwise. -/
def asBytes : PyVal → Except PErr (List Nat)
  | .bytes bs => .ok bs
  | .pylist vs => if vs.all (fun x => x < 256) then .ok vs else .error .valueError
  | .int i => if 0 ≤ i then .ok (List.replicate i.toNat 0) else .error .valueError
  | _ => .error .typeError

/-- The field loop of `StreamProtocol.pack_values` (lines 134-152): builds the
argument list and, for the variable-length blob types, appends an extra
`"%ds"` code to the format string that was passed in — mutating it. -/
def packBuild (values : List (String × PyVal)) :
    List Field → List FmtItem → List PyVal → Except PErr (List FmtItem × List PyVal)
  | [], fmt, vlist => .ok (fmt, vlist)
  | f :: rest, fmt, vlist =>
    match values.lookup f.name with
    | none => .error (.protocol "missing field")
    | some v =>
      if f.type = .uint8aL8v ∨ f.type = .uint8aL16v then
        match asBytes v with
        | .error e => .error e
        | .ok bs =>
          packBuild values rest (fmt ++ [.str bs.length]) (vlist ++ [.int bs.length, .bytes bs])
      else if f.type = .uint8aGreedy then
        match asBytes v with
        | .error e => .error e
        | .ok bs => packBuild values rest (fmt ++ [.str bs.length]) (vlist ++ [.bytes bs])
      else packBuild values rest fmt (vlist ++ [v])

/-- `StreamProtocol.pack_values`. Besides the packed buffer it returns the
final state of the `packing_info` record, because the source mutates the
caller-supplied record in place. -/
def pack_values (values : List (String × PyVal)) (fields : List Field)
    (packing_info : Option PackingInfo) : Except PErr (List Nat × PackingInfo) :=
  let info := packing_info.getD (calculate_packing_info fields)
  match packBuild values fields info.pack_format [] with
  | .error e => .error e
  | .ok (fmt, vlist) =>
    match structPack fmt vlist with
    | .error e => .error e
    | .ok buf => .ok (buf, { info with pack_format := fmt })

/-- Python dict assignment `d[k] = v`: replace in place if the key exists,
append otherwise. -/
def dictInsert (d : List (String × PyVal)) (k : String) (v : PyVal) :
    List (String × PyVal) :=
  if (d.lookup k).isSome then d.map (fun p => if p.1 = k then (k, v) else p)
  else d ++ [(k, v)]

/-- The field loop of `StreamProtocol.unpack_values` (lines 191-205), indexing
the unpacked tuple by the field's position. On a variable-blob length
mismatch the source formats its error message with `values[field["name"]]`
before that key has been assigned, so the raise itself raises `KeyError`
unless an earlier field of the same name already populated the key. For a
`macaddr` field the source stores `[x for x in unpacked[i]]` — a Python
`list`, not the `bytes` the unpacking produced. -/
def unpackLoop (buffer : List Nat) (exp : Nat) (unpacked : List PyVal) :
    List (String × PyVal) → Nat → List Field → Except PErr (List (String × PyVal))
  | vals, _, [] => .ok vals
  | vals, i, f :: rest =>
    if f.type = .uint8aL8v ∨ f.type = .uint8aL16v ∨ f.type = .uint8aGreedy then
      if f.type = .uint8aGreedy then
        unpackLoop buffer exp unpacked
          (dictInsert vals f.name (.bytes (buffer.drop exp))) (i + 1) rest
      else
        match unpacked[i]? with
        | none => .error .indexError
        | some (.int L) =>
          if L + (exp : Int) ≠ (buffer.length : Int) then
            match vals.lookup f.name with
            | some _ => .error (.protocol "length mismatch")
            | none => .error .keyError
          else
            unpackLoop buffer exp unpacked
              (dictInsert vals f.name (.bytes (buffer.drop exp))) (i + 1) rest
        | some _ => .error .typeError
    else if f.type = .macaddr then
      match unpacked[i]? with
      | none => .error .indexError
      | some (.bytes bs) =>
        unpackLoop buffer exp unpacked (dictInsert vals f.name (.pylist bs)) (i + 1) rest
      | some _ => .error .typeError
    else
      match unpacked[i]? with
      | none => .error .indexError
      | some u => unpackLoop buffer exp unpacked (dictInsert vals f.name u) (i + 1) rest

/-- `StreamProtocol.unpack_values`. -/
def unpack_values (buffer : List Nat) (fields : List Field)
    (packing_info : Option PackingInfo) : Except PErr (List (String × PyVal)) :=
  let info := packing_info.getD (calculate_packing_info fields)
  if buffer.length < info.expected_length then .error (.protocol "short buffer")
  else
    match structUnpack info.pack_format (buffer.take info.expected_length) with
    | .error e => .error e
    | .ok unpacked => unpackLoop buffer info.expected_length unpacked [] 0 fields

/-- A packet definition dictionary as built by the protocol subclasses:
`name`, an `args` field list, and (for command packets) a
`response_required` entry. The outer `Option` models whether the
`"response_required"` key is present at all; the inner one its value. -/
structure PacketDef where
  name : Option String
  args : List Field
  response_required : Option (Option String)
  deriving DecidableEq, Repr

/-- A `StreamPacket` as relevant here: name, definition, raw buffer and the
unpacked payload dictionary (the TLV/LTV/text definitions carry no header
or footer fields). -/
structure Packet where
  name : Option String
  definition : Option PacketDef
  buffer : List Nat
  payload : List (String × PyVal)
  deriving DecidableEq, Repr

/-- `StreamPacket.__init__` plus `build_structure_from_buffer` for a
definition without `header_args`/`footer_args`: take the name from the
definition and unpack the full buffer against the payload field list. -/
def streamPacketFromBuffer (d : PacketDef) (buf : List Nat) : Except PErr Packet :=
  let info := calculate_packing_info d.args
  match unpack_values buf d.args (some info) with
  | .error e => .error e
  | .ok payload => .ok { name := d.name, definition := some d, buffer := buf, payload := payload }

/-- Observer invocations fired while processing bytes. -/
inductive Event
  | rxPacket (p : Packet)
  | rxError (msg : String) (buffer : List Nat)
  | txPacket (p : Packet)
  | incomingTimeout (buffer : List Nat)
  | responseTimeout (pending : Option String)
  deriving DecidableEq, Repr

/-- A protocol class: the overridable predicates, byte sets, timeouts and the
buffer-to-packet factory. -/
structure Protocol where
  start_test : List Nat → ParseStatus
  complete_test : List Nat → ParseStatus
  backspace_bytes : List Nat
  terminal_bytes : List Nat
  trim_bytes : List Nat
  packet_from_buffer : List Nat → Except PErr Packet
  incoming_packet_timeout : Option Nat
  response_packet_timeout : Option Nat

/-- `StreamProtocol.test_packet_start` default: any data starts a packet. -/
def default_test_packet_start (_buffer : List Nat) : ParseStatus :=
  .IN_PROGRESS

/-- `StreamProtocol.test_packet_complete` default: with terminal bytes
defined, complete exactly when the last byte is one of them; with none,
complete after any byte. (The source indexes `buffer[-1]`; the parser only
calls this with a nonempty buffer.) -/
def default_test_packet_complete (terminal : List Nat) (buffer : List Nat) : ParseStatus :=
  if 0 < terminal.length then
    match buffer.getLast? with
    | some x => if x ∈ terminal then .COMPLETE else .IN_PROGRESS
    | none => .IN_PROGRESS
  else .COMPLETE

/-- Mutable state of a `StreamParserGenerator` (the fields touched by
`parse_byte`, `process`, `send_packet` and `wait_packet`). -/
structure PGState where
  rx_buffer : List Nat
  parser_status : ParseStatus
  incoming_t0 : Nat
  response_t0 : Nat
  response_pending : Option String
  rx_packet : Option Packet
  wait_timed_out : Bool
  wait_event_set : Bool
  rx_deque : List Nat
  incoming_packet_timeout : Option Nat
  response_packet_timeout : Option Nat
  deriving DecidableEq, Repr

/-- `StreamParserGenerator.reset`: clear buffer, go idle, disarm the incoming
timer. -/
def resetState (s : PGState) : PGState :=
  { s with rx_buffer := [], parser_status := .IDLE, incoming_t0 := 0 }

/-- A freshly constructed parser/generator over protocol `P`
(`__init__` followed by `reset`). -/
def initState (P : Protocol) : PGState :=
  { rx_buffer := []
    parser_status := .IDLE
    incoming_t0 := 0
    response_t0 := 0
    response_pending := none
    rx_packet := none
    wait_timed_out := false
    wait_event_set := false
    rx_deque := []
    incoming_packet_timeout := P.incoming_packet_timeout
    response_packet_timeout := P.response_packet_timeout }

/-- The trim pass of `parse_byte` (lines 276-278): one iteration over the trim
set, stripping at most one matching trailing byte per set element; indexing
`rx_buffer[-1]` on an emptied buffer raises `IndexError`. -/
def trimLoop : List Nat → List Nat → Except PErr (List Nat)
  | [], buf => .ok buf
  | b :: rest, buf =>
    match buf.getLast? with
    | none => .error .indexError
    | some x => trimLoop rest (if x = b then buf.dropLast else buf)

/-- Lines 236-242 of `parse_byte`: when idle, run the start test and, if a
packet begins and an incoming timeout is configured, arm the incoming
timer with the current time. -/
def parseStart (P : Protocol) (now : Nat) (s1 : PGState) : PGState :=
  if s1.parser_status = .IDLE then
    let st := P.start_test s1.rx_buffer
    if st ≠ .IDLE ∧ s1.incoming_packet_timeout ≠ none then
      { s1 with parser_status := st, incoming_t0 := now }
    else { s1 with parser_status := st }
  else s1

/-- Lines 246-270 of `parse_byte` (only reached when not idle): backspace
handling, or else the continued start test and the completion test. -/
def parseEdit (P : Protocol) (s2 : PGState) (b : Nat) : PGState :=
  if 0 < P.backspace_bytes.length ∧ b ∈ P.backspace_bytes then
    let sB : PGState :=
      if 1 < s2.rx_buffer.length then
        { s2 with rx_buffer := s2.rx_buffer.dropLast.dropLast }
      else { s2 with rx_buffer := s2.rx_buffer.dropLast }
    if sB.rx_buffer.length = 0 then { sB with parser_status := .IDLE } else sB
  else
    let sS : PGState :=
      if s2.parser_status = .STARTING then
        { s2 with parser_status := P.start_test s2.rx_buffer }
      else s2
    if sS.parser_status = .IN_PROGRESS then
      { sS with parser_status := P.complete_test sS.rx_buffer }
    else sS

/-- Lines 272-308 of `parse_byte`: on `COMPLETE`, trim, build the packet
(catching only `PerilibProtocolException`), reset, handle the pending
response match, and fire the observers. -/
def parseFinish (P : Protocol) (s3 : PGState) : Except PErr (PGState × List Event) :=
  if s3.parser_status = .COMPLETE then
    match
      (if 0 < P.trim_bytes.length then trimLoop P.trim_bytes s3.rx_buffer
       else .ok s3.rx_buffer) with
    | .error e => .error e
    | .ok trimmed =>
      let s4 : PGState := { s3 with rx_buffer := trimmed }
      match P.packet_from_buffer s4.rx_buffer with
      | .ok pkt =>
        let s5 : PGState := { resetState s4 with rx_packet := some pkt }
        let s6 : PGState :=
          if pkt.name = s5.response_pending then { s5 with response_t0 := 0 } else s5
        let s7 : PGState :=
          if pkt.name = s6.response_pending then
            { s6 with response_pending := none, wait_timed_out := false, wait_event_set := true }
          else s6
        .ok (s7, [Event.rxPacket pkt])
      | .error (.protocol msg) => .ok (resetState s4, [Event.rxError msg s4.rx_buffer])
      | .error e => .error e
  else .ok (s3, [])

/-- `StreamParserGenerator.parse_byte`: append the byte, run the three stages
above, and reset (discarding junk) if the start test rejected. Returns the
successor state and the observer invocations, or the uncaught Python
exception: only `PerilibProtocolException` from the packet factory is
caught. -/
def parse_byte (P : Protocol) (now : Nat) (s0 : PGState) (b : Nat) :
    Except PErr (PGState × List Event) :=
  let s2 : PGState := parseStart P now { s0 with rx_buffer := s0.rx_buffer ++ [b] }
  if s2.parser_status ≠ .IDLE then parseFinish P (parseEdit P s2 b)
  else .ok (resetState s2, [])

/-- Feed a whole byte list through `parse_byte` (the `parse` method),
collecting the observer invocations in order. -/
def runBytes (P : Protocol) (now : Nat) (s : PGState) : List Nat →
    Except PErr (PGState × List Event)
  | [] => .ok (s, [])
  | b :: rest =>
    match parse_byte P now s b with
    | .error e => .error e
    | .ok (s1, evs) =>
      match runBytes P now s1 rest with
      | .error e => .error e
      | .ok (s2, evs2) => .ok (s2, evs ++ evs2)

/-- Python `elapsed > timeout` where the timeout may be `None`: comparing a
number with `None` raises `TypeError` in Python 3. -/
def pyGT (elapsed : Nat) (timeout : Option Nat) : Except PErr Bool :=
  match timeout with
  | none => .error .typeError
  | some t => .ok (decide (t < elapsed))

/-- The queue-draining loop at the top of `process`: pop and parse every
queued byte. (`parse_byte` never touches the queue itself.) -/
def drainGo (P : Protocol) (now : Nat) : List Nat → PGState → List Event →
    Except PErr (PGState × List Event)
  | [], s, evs => .ok (s, evs)
  | b :: rest, s, evs =>
    match parse_byte P now s b with
    | .error e => .error e
    | .ok (s1, e1) => drainGo P now rest s1 (evs ++ e1)

/-- `StreamParserGenerator.process` (mode/force arguments have no effect at
this layer): drain the receive queue, then run the two polled timeout
checks. Each `!= 0` guard short-circuits, so a disarmed timer is never
compared against a `None` timeout. -/
def process (P : Protocol) (s : PGState) (now : Nat) : Except PErr (PGState × List Event) :=
  match drainGo P now s.rx_deque { s with rx_deque := [] } [] with
  | .error e => .error e
  | .ok (s1, evs1) =>
    match
      ((if s1.incoming_t0 ≠ 0 then
        match pyGT (now - s1.incoming_t0) s1.incoming_packet_timeout with
        | .error e => .error e
        | .ok true => .ok (resetState s1, evs1 ++ [Event.incomingTimeout s1.rx_buffer])
        | .ok false => .ok (s1, evs1)
      else .ok (s1, evs1)) : Except PErr (PGState × List Event)) with
    | .error e => .error e
    | .ok (s2, evs2) =>
      if s2.response_t0 ≠ 0 then
        match pyGT (now - s2.response_t0) s2.response_packet_timeout with
        | .error e => .error e
        | .ok true =>
          .ok ({ s2 with response_pending := none, response_t0 := 0, wait_timed_out := true, wait_event_set := true },
               evs2 ++ [Event.responseTimeout s2.response_pending])
        | .ok false => .ok (s2, evs2)
      else .ok (s2, evs2)

/-- `StreamParserGenerator.send_packet`, with the protocol's
`get_packet_from_name_and_args` abstracted as `gen` and the stream write
result as `writeOk`. If the packet's definition carries a
`response_required` key, record it as pending and, when its value is not
`None`, arm the response timer with the current time. A packet without a
definition makes the `in` test raise `TypeError`. -/
def send_packet (gen : String → Except PErr Packet) (writeOk : Bool) (s : PGState)
    (name : String) (now : Nat) : Except PErr (PGState × Bool × List Event) :=
  match gen name with
  | .error e => .error e
  | .ok pkt =>
    match pkt.definition with
    | none => .error .typeError
    | some d =>
      match d.response_required with
      | none => .ok (s, writeOk, [Event.txPacket pkt])
      | some rr =>
        let sP : PGState := { s with response_pending := rr }
        let sT : PGState := if rr ≠ none then { sP with response_t0 := now } else sP
        .ok (sT, writeOk, [Event.txPacket pkt])

/-- Result of `wait_packet`: `value p` models returning a packet or `None`,
`busy` models the `return False` branch, `blocked` models reaching
`threading.Event.wait()` with the event not set (which, single-threaded,
never returns). -/
inductive WaitOutcome
  | busy
  | value (p : Option Packet)
  | blocked
  deriving DecidableEq, Repr

/-- The busy-wait loop at the top of `wait_packet`
(`while self.response_pending is not None: ... self.stream.process()`).
`procStep` abstracts the effect of one `stream.process()` call on the
parser/generator state; `fuel` bounds the number of iterations, `none`
meaning the loop never terminated within the bound. -/
def waitLoop (procStep : PGState → PGState) : Nat → PGState → Option PGState
  | 0, s => if s.response_pending = none then some s else none
  | fuel + 1, s =>
    if s.response_pending = none then some s
    else waitLoop procStep fuel (procStep s)

/-- The tail of `wait_packet` after the pending-name bookkeeping: block on the
wait event if something is pending, then return the last received packet,
or `None` after a timeout. -/
def waitTail (s : PGState) : WaitOutcome × PGState :=
  if s.response_pending ≠ none then
    if s.wait_event_set then
      let s1 : PGState := { s with wait_event_set := false }
      ((.value (if s1.wait_timed_out then none else s1.rx_packet)), s1)
    else (.blocked, s)
  else ((.value (if s.wait_timed_out then none else s.rx_packet)), s)

/-- `StreamParserGenerator.wait_packet`: first busy-wait until nothing is
pending; then, if a packet name is requested, either abort with `False`
(busy) when something is pending, or record the new pending name and arm
the response timer; finally wait on the event and return. -/
def wait_packet (procStep : PGState → PGState) (fuel : Nat) (s : PGState)
    (name : Option String) (now : Nat) : Option (WaitOutcome × PGState) :=
  match waitLoop procStep fuel s with
  | none => none
  | some s1 =>
    match name with
    | some n =>
      if s1.response_pending ≠ none then some (.busy, s1)
      else
        let s2 : PGState := { s1 with response_pending := some n, response_t0 := now }
        some (waitTail s2)
    | none => some (waitTail s1)

/-- The TLV packet definition built by
`TLVStreamProtocol.get_packet_from_buffer`. -/
def tlvArgs : List Field :=
  [{ name := "type", type := .uint8, width := 0 },
   { name := "length", type := .uint8, width := 0 },
   { name := "value", type := .uint8aGreedy, width := 0 }]

/-- The TLV packet definition record. -/
def tlvDef : PacketDef :=
  { name := some "tlv_packet", args := tlvArgs, response_required := none }

/-- `TLVStreamProtocol.test_packet_complete`:
complete when `len(buffer) > 1 and len(buffer) == buffer[1] + 2`. -/
def tlv_test_packet_complete (buffer : List Nat) : ParseStatus :=
  if 1 < buffer.length ∧ buffer.length = buffer.getD 1 0 + 2 then .COMPLETE
  else .IN_PROGRESS

/-- The `TLVStreamProtocol` class as a protocol record: default start test,
TLV completion test, no backspace/terminal/trim bytes, no timeouts. -/
def tlvProtocol : Protocol :=
  { start_test := default_test_packet_start
    complete_test := tlv_test_packet_complete
    backspace_bytes := []
    terminal_bytes := []
    trim_bytes := []
    packet_from_buffer := streamPacketFromBuffer tlvDef
    incoming_packet_timeout := none
    response_packet_timeout := none }

/-- The text packet definition built by
`TextStreamProtocol.get_packet_from_buffer`. -/
def textDef : PacketDef :=
  { name := some "text_packet"
    args := [{ name := "text", type := .uint8aGreedy, width := 0 }]
    response_required := none }

/-- The `TextStreamProtocol` class: default start and completion tests with
`terminal_bytes = [0x0A]`, `backspace_bytes = [0x08, 0x7F]`,
`trim_bytes = [0x0A, 0x0D]`. -/
def textProtocol : Protocol :=
  { start_test := default_test_packet_start
    complete_test := default_test_packet_complete [0x0A]
    backspace_bytes := [0x08, 0x7F]
    terminal_bytes := [0x0A]
    trim_bytes := [0x0A, 0x0D]
    packet_from_buffer := streamPacketFromBuffer textDef
    incoming_packet_timeout := none
    response_packet_timeout := none }

/-- The variable-length blob types (the ones whose packing appends an extra
format code at packing time). -/
def isVarLen : FieldType → Bool
  | .uint8aL8v => true
  | .uint8aL16v => true
  | .uint8aGreedy => true
  | _ => false

/-- A value is representable in a field's declared type and width. -/
def validValue (f : Field) (v : PyVal) : Bool :=
  match f.type, v with
  | .uint8, .int i => decide (0 ≤ i ∧ i < 256)
  | .uint16, .int i => decide (0 ≤ i ∧ i < 65536)
  | .uint32, .int i => decide (0 ≤ i ∧ i < 4294967296)
  | .int8, .int i => decide (-128 ≤ i ∧ i < 128)
  | .int16, .int i => decide (-32768 ≤ i ∧ i < 32768)
  | .int32, .int i => decide (-2147483648 ≤ i ∧ i < 2147483648)
  | .float, .f32 n => decide (n < 4294967296)
  | .macaddr, .bytes bs => decide (bs.length = 6) && bs.all (fun x => x < 256)
  | .uint8aL8v, .bytes bs => decide (bs.length < 256) && bs.all (fun x => x < 256)
  | .uint8aL16v, .bytes bs => decide (bs.length < 65536) && bs.all (fun x => x < 256)
  | .uint8aGreedy, .bytes bs => bs.all (fun x => x < 256)
  | .uint8aFixed, .bytes bs => decide (bs.length = f.width) && bs.all (fun x => x < 256)
  | _, _ => false

/-- A value map is valid for a field list: same length, keys equal to the
field names in order, every value representable. -/
def validFor (F : List Field) (V : List (String × PyVal)) : Bool :=
  decide (F.length = V.length) &&
    (F.zip V).all (fun p => decide (p.2.1 = p.1.name) && validValue p.1 p.2.2) &&
    decide ((F.map Field.name).Nodup)

/-- The round-trip property of claim C1 at one concrete field list and value
map, as a computation: pack, then unpack, and compare with the original. -/
def roundTripB (F : List Field) (V : List (String × PyVal)) : Bool :=
  match pack_values V F none with
  | .ok (buf, _) =>
    match unpack_values buf F none with
    | .ok W => decide (W = V)
    | .error _ => false
  | .error _ => false

/-- The packet produced by scenario S1 (`01 05 48 65 6C 6C 6F` under TLV). -/
def tlvHelloPacket : Packet :=
  { name := some "tlv_packet"
    definition := some tlvDef
    buffer := [1, 5, 72, 101, 108, 108, 111]
    payload := [("type", .int 1), ("length", .int 5), ("value", .bytes [72, 101, 108, 108, 111])] }

/-- The packet produced by feeding `41 0D 0D 0A` to the text protocol: the
single trim pass strips the `0A` and only one `0D`. -/
def textTrimPacket : Packet :=
  { name := some "text_packet"
    definition := some textDef
    buffer := [65, 13]
    payload := [("text", .bytes [65, 13])] }

/-- A field list with a variable-length blob before a fixed field. -/
def c1BadFields : List Field :=
  [{ name := "a", type := .uint8aL8v, width := 0 },
   { name := "b", type := .uint8, width := 0 }]

/-- A valid value map for `c1BadFields`. -/
def c1BadValues : List (String × PyVal) :=
  [("a", .bytes [5]), ("b", .int 7)]

/-- A field list consisting of a single `macaddr` field. -/
def c1MacFields : List Field :=
  [{ name := "mac", type := .macaddr, width := 0 }]

/-- A valid value map for `c1MacFields` (a 6-byte `bytes` value, as
`struct.pack`'s `"6s"` code requires). -/
def c1MacValues : List (String × PyVal) :=
  [("mac", .bytes [1, 2, 3, 4, 5, 6])]

/-- A parser/generator state with a response already pending. -/
def busyDemoState : PGState :=
  { initState tlvProtocol with response_pending := some "pong" }

/-- A `stream.process()` effect that delivers (or times out) the pending
response, clearing it. -/
def busyDemoStep (s : PGState) : PGState :=
  { s with response_pending := none }

/-- A parser/generator state that has already received a packet and has no
pending response. -/
def idleWithPacketState : PGState :=
  { initState tlvProtocol with rx_packet := some tlvHelloPacket }

/-- A TLV-shaped value map used in the packing-info reuse demonstration. -/
def c6Values : List (String × PyVal) :=
  [("type", .int 1), ("length", .int 5), ("value", .bytes [72, 101, 108, 108, 111])]

/-- The packing info record after `pack_values` has mutated the cached TLV
layout: an extra `"5s"` code has been appended. -/
def c6MutatedInfo : PackingInfo :=
  { pack_format := [.u8, .u8, .str 5], expected_length := 2 }

/-- A command packet definition whose `response_required` names `pong`. -/
def pingDef : PacketDef :=
  { name := some "ping", args := [], response_required := some (some "pong") }

/-- The generated `ping` packet (empty payload). -/
def pingPacket : Packet :=
  { name := some "ping", definition := some pingDef, buffer := [], payload := [] }

/-- The parser/generator state right after sending `ping` at time 7 with no
response timeout configured. -/
def c10SentState : PGState :=
  { initState tlvProtocol with response_pending := some "pong", response_t0 := 7 }

/-! ## Helper lemmas -/

lemma waitLoop_pending_none (procStep : PGState → PGState) :
    ∀ (fuel : Nat) (s s1 : PGState), waitLoop procStep fuel s = some s1 →
      s1.response_pending = none := by
  intro fuel
  induction fuel with
  | zero =>
    intro s s1 h
    unfold waitLoop at h
    by_cases hp : s.response_pending = none
    · simp [hp] at h
      exact h ▸ hp
    · simp [hp] at h
  | succ n ih =>
    intro s s1 h
    unfold waitLoop at h
    by_cases hp : s.response_pending = none
    · simp [hp] at h
      exact h ▸ hp
    · simp [hp] at h
      exact ih _ _ h

lemma waitLoop_of_none (procStep : PGState → PGState) (fuel : Nat) (s : PGState)
    (h : s.response_pending = none) : waitLoop procStep fuel s = some s := by
  cases fuel <;> simp [waitLoop, h]

lemma waitTail_ne_busy (s : PGState) : (waitTail s).1 ≠ WaitOutcome.busy := by
  unfold waitTail
  split_ifs <;> simp

lemma parseStart_of_not_idle (P : Protocol) (now : Nat) (s1 : PGState)
    (h : ¬ s1.parser_status = .IDLE) : parseStart P now s1 = s1 := by
  unfold parseStart
  rw [if_neg h]

lemma parseFinish_of_not_complete (P : Protocol) (s3 : PGState)
    (h : ¬ s3.parser_status = .COMPLETE) : parseFinish P s3 = .ok (s3, []) := by
  unfold parseFinish
  rw [if_neg h]

lemma toLEBytes_length (w v : Nat) : (toLEBytes w v).length = w := by
  induction w generalizing v with
  | zero => rfl
  | succ n ih => simp [toLEBytes, ih]

lemma fromLEBytes_toLEBytes (w v : Nat) (h : v < 256 ^ w) :
    fromLEBytes (toLEBytes w v) = v := by
  induction w generalizing v with
  | zero =>
    simp [toLEBytes, fromLEBytes]
    omega
  | succ n ih =>
    have hdiv : v / 256 < 256 ^ n := by
      apply Nat.div_lt_of_lt_mul
      rw [Nat.pow_succ] at h
      omega
    simp only [toLEBytes, fromLEBytes, ih (v / 256) hdiv]
    omega

lemma encodeFmt_length (it : FmtItem) (v : PyVal) (bs : List Nat)
    (h : encodeFmt it v = .ok bs) : bs.length = itemSize it := by
  cases it <;> cases v <;> simp only [encodeFmt, reduceCtorEq] at h <;>
    first
      | (split_ifs at h
         simp only [Except.ok.injEq] at h
         rw [← h]
         exact toLEBytes_length _ _)
      | (simp only [Except.ok.injEq] at h
         rw [← h]
         simp only [List.length_append, List.length_take, List.length_replicate, itemSize]
         omega)

lemma structPack_append (xs : List FmtItem) (vs : List PyVal) (bs : List Nat)
    (ys : List FmtItem) (ws : List PyVal) (h : structPack xs vs = .ok bs) :
    structPack (xs ++ ys) (vs ++ ws) =
      match structPack ys ws with
      | .ok cs => .ok (bs ++ cs)
      | .error e => .error e := by
  induction xs generalizing vs bs with
  | nil =>
    cases vs with
    | nil =>
      simp only [structPack, Except.ok.injEq] at h
      subst h
      simp only [List.nil_append]
      cases structPack ys ws <;> simp
    | cons v vs' => exact absurd h (by simp [structPack])
  | cons it xs' ih =>
    cases vs with
    | nil => exact absurd h (by simp [structPack])
    | cons v vs' =>
      simp only [structPack] at h
      cases he : encodeFmt it v with
      | error e => rw [he] at h; exact absurd h (by simp)
      | ok bse =>
        rw [he] at h
        dsimp only at h
        cases hp : structPack xs' vs' with
        | error e => rw [hp] at h; exact absurd h (by simp)
        | ok rest =>
          rw [hp] at h
          dsimp only at h
          simp only [Except.ok.injEq] at h
          subst h
          simp only [List.cons_append, structPack, he, List.append_eq]
          rw [ih vs' rest hp]
          cases structPack ys ws <;> simp [List.append_assoc]

lemma structUnpack_append (xs : List FmtItem) (bs : List Nat) (us : List PyVal)
    (ys : List FmtItem) (cs : List Nat) (h : structUnpack xs bs = .ok us) :
    structUnpack (xs ++ ys) (bs ++ cs) =
      match structUnpack ys cs with
      | .ok ws => .ok (us ++ ws)
      | .error e => .error e := by
  induction xs generalizing bs us with
  | nil =>
    cases bs with
    | nil =>
      simp only [structUnpack, Except.ok.injEq] at h
      subst h
      simp only [List.nil_append]
      cases structUnpack ys cs <;> simp
    | cons b bs' => exact absurd h (by simp [structUnpack])
  | cons it xs' ih =>
    simp only [structUnpack] at h
    split_ifs at h with hlt
    cases hp : structUnpack xs' (bs.drop (itemSize it)) with
    | error e => rw [hp] at h; exact absurd h (by simp)
    | ok vs =>
      rw [hp] at h
      dsimp only at h
      simp only [Except.ok.injEq] at h
      subst h
      have hlt2 : ¬ (bs ++ cs).length < itemSize it := by
        simp only [List.length_append]
        omega
      simp only [List.cons_append, structUnpack, hlt2, if_false, ite_false, List.append_eq]
      have hdrop : (bs ++ cs).drop (itemSize it) = bs.drop (itemSize it) ++ cs :=
        List.drop_append_of_le_length (by omega)
      have htake : (bs ++ cs).take (itemSize it) = bs.take (itemSize it) :=
        List.take_append_of_le_length (by omega)
      rw [hdrop, htake, ih (bs.drop (itemSize it)) vs hp]
      cases structUnpack ys cs <;> simp

lemma structPack_single (it : FmtItem) (v : PyVal) (bs : List Nat)
    (h : encodeFmt it v = .ok bs) : structPack [it] [v] = .ok bs := by
  simp only [structPack, h]
  rw [List.append_nil]

lemma structPack_pair (it1 it2 : FmtItem) (v1 v2 : PyVal) (b1 b2 : List Nat)
    (h1 : encodeFmt it1 v1 = .ok b1) (h2 : encodeFmt it2 v2 = .ok b2) :
    structPack [it1, it2] [v1, v2] = .ok (b1 ++ b2) := by
  have hs1 : structPack [it1] [v1] = .ok b1 := structPack_single it1 v1 b1 h1
  have hs2 : structPack [it2] [v2] = .ok b2 := structPack_single it2 v2 b2 h2
  have hx := structPack_append [it1] [v1] b1 [it2] [v2] hs1
  rw [hs2] at hx
  exact hx

lemma structUnpack_single (it : FmtItem) (bs : List Nat) (h : bs.length = itemSize it) :
    structUnpack [it] bs = .ok [decodeOne it bs] := by
  have hlt : ¬ bs.length < itemSize it := by omega
  have hdrop : bs.drop (itemSize it) = [] := by
    rw [← h, List.drop_length]
  have htake : bs.take (itemSize it) = bs := by
    rw [← h, List.take_length]
  simp [structUnpack, hlt, hdrop, htake]

lemma fixedField_roundtrip (f : Field) (v : PyVal) (hk : isVarLen f.type = false)
    (hv : validValue f v = true) :
    ∃ it bs, fieldItems f = [it] ∧ itemSize it = fieldWidth f ∧
      encodeFmt it v = .ok bs ∧ bs.length = fieldWidth f ∧ decodeOne it bs = v := by
  obtain ⟨nm, ty, w⟩ := f
  cases ty
  case uint8aL8v => simp [isVarLen] at hk
  case uint8aL16v => simp [isVarLen] at hk
  case uint8aGreedy => simp [isVarLen] at hk
  case uint8 =>
    cases v with
    | int i =>
      simp only [validValue, decide_eq_true_eq] at hv
      refine ⟨.u8, toLEBytes 1 i.toNat, rfl, rfl, by simp [encodeFmt, hv.1, hv.2],
        toLEBytes_length _ _, ?_⟩
      simp only [decodeOne]
      rw [fromLEBytes_toLEBytes 1 i.toNat (by simp only [pow_one]; omega)]
      congr 1
      omega
    | bytes bs => simp [validValue] at hv
    | f32 n => simp [validValue] at hv
    | pylist vs => simp [validValue] at hv
  case uint16 =>
    cases v with
    | int i =>
      simp only [validValue, decide_eq_true_eq] at hv
      refine ⟨.u16, toLEBytes 2 i.toNat, rfl, rfl, by simp [encodeFmt, hv.1, hv.2],
        toLEBytes_length _ _, ?_⟩
      simp only [decodeOne]
      rw [fromLEBytes_toLEBytes 2 i.toNat (by norm_num; omega)]
      congr 1
      omega
    | bytes bs => simp [validValue] at hv
    | f32 n => simp [validValue] at hv
    | pylist vs => simp [validValue] at hv
  case uint32 =>
    cases v with
    | int i =>
      simp only [validValue, decide_eq_true_eq] at hv
      refine ⟨.u32, toLEBytes 4 i.toNat, rfl, rfl, by simp [encodeFmt, hv.1, hv.2],
        toLEBytes_length _ _, ?_⟩
      simp only [decodeOne]
      rw [fromLEBytes_toLEBytes 4 i.toNat (by norm_num; omega)]
      congr 1
      omega
    | bytes bs => simp [validValue] at hv
    | f32 n => simp [validValue] at hv
    | pylist vs => simp [validValue] at hv
  case int8 =>
    cases v with
    | int i =>
      simp only [validValue, decide_eq_true_eq] at hv
      refine ⟨.s8, toLEBytes 1 (i % 256).toNat, rfl, rfl, by simp [encodeFmt, hv.1, hv.2],
        toLEBytes_length _ _, ?_⟩
      simp only [decodeOne]
      rw [fromLEBytes_toLEBytes 1 (i % 256).toNat (by simp only [pow_one]; omega)]
      split_ifs with hlt
      · congr 1
        omega
      · congr 1
        omega
    | bytes bs => simp [validValue] at hv
    | f32 n => simp [validValue] at hv
    | pylist vs => simp [validValue] at hv
  case int16 =>
    cases v with
    | int i =>
      simp only [validValue, decide_eq_true_eq] at hv
      refine ⟨.s16, toLEBytes 2 (i % 65536).toNat, rfl, rfl, by simp [encodeFmt, hv.1, hv.2],
        toLEBytes_length _ _, ?_⟩
      simp only [decodeOne]
      rw [fromLEBytes_toLEBytes 2 (i % 65536).toNat (by norm_num; omega)]
      split_ifs with hlt
      · congr 1
        omega
      · congr 1
        omega
    | bytes bs => simp [validValue] at hv
    | f32 n => simp [validValue] at hv
    | pylist vs => simp [validValue] at hv
  case int32 =>
    cases v with
    | int i =>
      simp only [validValue, decide_eq_true_eq] at hv
      refine ⟨.s32, toLEBytes 4 (i % 4294967296).toNat, rfl, rfl,
        by simp [encodeFmt, hv.1, hv.2], toLEBytes_length _ _, ?_⟩
      simp only [decodeOne]
      rw [fromLEBytes_toLEBytes 4 (i % 4294967296).toNat (by norm_num; omega)]
      split_ifs with hlt
      · congr 1
        omega
      · congr 1
        omega
    | bytes bs => simp [validValue] at hv
    | f32 n => simp [validValue] at hv
    | pylist vs => simp [validValue] at hv
  case float =>
    cases v with
    | int i => simp [validValue] at hv
    | bytes bs => simp [validValue] at hv
    | pylist vs => simp [validValue] at hv
    | f32 n =>
      simp only [validValue, decide_eq_true_eq] at hv
      refine ⟨.f32, toLEBytes 4 n, rfl, rfl, by simp [encodeFmt, hv],
        toLEBytes_length _ _, ?_⟩
      simp only [decodeOne]
      rw [fromLEBytes_toLEBytes 4 n (by norm_num; omega)]
  case macaddr =>
    cases v with
    | int i => simp [validValue] at hv
    | f32 n => simp [validValue] at hv
    | pylist vs => simp [validValue] at hv
    | bytes bs =>
      simp only [validValue, Bool.and_eq_true, decide_eq_true_eq] at hv
      refine ⟨.str 6, bs, rfl, rfl, ?_, hv.1, rfl⟩
      simp only [encodeFmt]
      rw [← hv.1]
      simp [List.take_length]
  case uint8aFixed =>
    cases v with
    | int i => simp [validValue] at hv
    | f32 n => simp [validValue] at hv
    | pylist vs => simp [validValue] at hv
    | bytes bs =>
      simp only [validValue, Bool.and_eq_true, decide_eq_true_eq] at hv
      refine ⟨.str w, bs, rfl, by simp [itemSize, fieldWidth, typeWidth], ?_,
        by simp [fieldWidth, typeWidth, hv.1], rfl⟩
      simp only [encodeFmt]
      rw [← hv.1]
      simp [List.take_length]

lemma calculate_packing_info_append (A B : List Field) :
    calculate_packing_info (A ++ B) =
      { pack_format :=
          (calculate_packing_info A).pack_format ++ (calculate_packing_info B).pack_format
        expected_length :=
          (calculate_packing_info A).expected_length +
            (calculate_packing_info B).expected_length } := by
  induction A with
  | nil => simp [calculate_packing_info]
  | cons f A' ih => simp [calculate_packing_info, ih, List.append_assoc, Nat.add_assoc]

lemma fixedBlock_roundtrip :
    ∀ (F : List Field) (V : List (String × PyVal)),
      (∀ f ∈ F, isVarLen f.type = false) → F.length = V.length →
      (∀ p ∈ F.zip V, p.2.1 = p.1.name ∧ validValue p.1 p.2.2 = true) →
      ∃ enc, structPack (calculate_packing_info F).pack_format (V.map Prod.snd) = .ok enc ∧
        enc.length = (calculate_packing_info F).expected_length ∧
        structUnpack (calculate_packing_info F).pack_format enc = .ok (V.map Prod.snd) := by
  intro F
  induction F with
  | nil =>
    intro V _ hlen _
    have : V = [] := List.length_eq_zero.mp hlen.symm
    subst this
    exact ⟨[], rfl, rfl, rfl⟩
  | cons f F' ih =>
    intro V hfix hlen hval
    cases V with
    | nil => simp at hlen
    | cons p V' =>
      obtain ⟨it, bs, hitems, hsize, henc, hblen, hdec⟩ :=
        fixedField_roundtrip f p.2 (hfix f (by simp))
          ((hval (f, p) (by simp [List.zip_cons_cons])).2)
      obtain ⟨enc', h1, h2, h3⟩ := ih V' (fun g hg => hfix g (by simp [hg]))
        (by simpa using hlen)
        (fun q hq => hval q (by simp [List.zip_cons_cons, hq]))
      have hfmt : (calculate_packing_info (f :: F')).pack_format =
          [it] ++ (calculate_packing_info F').pack_format := by
        simp [calculate_packing_info, hitems]
      have hexp : (calculate_packing_info (f :: F')).expected_length =
          fieldWidth f + (calculate_packing_info F').expected_length := rfl
      have hone : structPack [it] [p.2] = .ok bs := by
        simp [structPack, henc]
      have hpk := structPack_append [it] [p.2] bs
        (calculate_packing_info F').pack_format (V'.map Prod.snd) hone
      rw [h1] at hpk
      have huone : structUnpack [it] bs = .ok [decodeOne it bs] :=
        structUnpack_single it bs (by rw [hblen, hsize])
      have hup := structUnpack_append [it] bs [decodeOne it bs]
        (calculate_packing_info F').pack_format enc' huone
      rw [h3] at hup
      refine ⟨bs ++ enc', ?_, ?_, ?_⟩
      · rw [hfmt]
        simp only [List.map_cons]
        have : p.2 :: V'.map Prod.snd = [p.2] ++ V'.map Prod.snd := rfl
        rw [this, hpk]
      · simp only [List.length_append, hblen, h2, hexp]
      · rw [hfmt, hup]
        simp [hdec]

lemma isVarLen_false_iff (t : FieldType) :
    isVarLen t = false ↔ ¬(t = .uint8aL8v ∨ t = .uint8aL16v ∨ t = .uint8aGreedy) := by
  cases t <;> simp [isVarLen]

lemma lookup_singleton_ne (a : String × PyVal) (k : String) (h : k ≠ a.1) :
    List.lookup k [a] = none := by
  obtain ⟨a1, a2⟩ := a
  simp only at h
  simp [List.lookup, beq_eq_false_iff_ne.mpr h]

lemma lookup_append_none (d1 d2 : List (String × PyVal)) (k : String)
    (h : d1.lookup k = none) : (d1 ++ d2).lookup k = d2.lookup k := by
  induction d1 with
  | nil => rfl
  | cons a d1' ih =>
    obtain ⟨a1, a2⟩ := a
    simp only [List.lookup, List.cons_append] at h ⊢
    cases hk : (k == a1) with
    | true =>
      rw [hk] at h
      dsimp only at h
      exact absurd h (by simp)
    | false =>
      rw [hk] at h
      dsimp only at h ⊢
      exact ih h

lemma keys_eq_names (F : List Field) (V : List (String × PyVal))
    (hlen : F.length = V.length)
    (hkeys : ∀ p ∈ F.zip V, p.2.1 = p.1.name) : V.map Prod.fst = F.map Field.name := by
  induction F generalizing V with
  | nil =>
    have : V = [] := List.length_eq_zero.mp hlen.symm
    subst this
    rfl
  | cons f F' ih =>
    cases V with
    | nil => simp at hlen
    | cons p V' =>
      simp only [List.map_cons, List.cons.injEq]
      refine ⟨hkeys (f, p) (by simp [List.zip_cons_cons]), ?_⟩
      exact ih V' (by simpa using hlen)
        (fun q hq => hkeys q (by simp [List.zip_cons_cons, hq]))

lemma lookup_of_zip (F : List Field) (V : List (String × PyVal))
    (hlen : F.length = V.length)
    (hkeys : ∀ p ∈ F.zip V, p.2.1 = p.1.name)
    (hnodup : (F.map Field.name).Nodup) :
    ∀ p ∈ F.zip V, V.lookup p.1.name = some p.2.2 := by
  induction F generalizing V with
  | nil => intro p hp; simp at hp
  | cons f F' ih =>
    cases V with
    | nil => intro p hp; simp at hp
    | cons q V' =>
      intro p hp
      have hq : q.1 = f.name := hkeys (f, q) (by simp [List.zip_cons_cons])
      rw [List.zip_cons_cons] at hp
      rcases List.mem_cons.mp hp with h | h
      · subst h
        obtain ⟨q1, q2⟩ := q
        simp only at hq
        subst hq
        simp [List.lookup]
      · have hmem : p.1 ∈ F' := (List.of_mem_zip h).1
        have hne : p.1.name ≠ f.name := by
          have hin : p.1.name ∈ F'.map Field.name := List.mem_map_of_mem _ hmem
          have hnotin : f.name ∉ F'.map Field.name := (List.nodup_cons.mp hnodup).1
          intro hcontra
          rw [hcontra] at hin
          exact hnotin hin
        obtain ⟨q1, q2⟩ := q
        simp only at hq
        subst hq
        simp only [List.lookup, beq_eq_false_iff_ne.mpr hne]
        exact ih V' (by simpa using hlen)
          (fun r hr => hkeys r (by simp [List.zip_cons_cons, hr]))
          (List.nodup_cons.mp hnodup).2 p h

lemma packBuild_append (values : List (String × PyVal)) (A B : List Field) :
    ∀ (fmt : List FmtItem) (vl : List PyVal),
      packBuild values (A ++ B) fmt vl =
        match packBuild values A fmt vl with
        | .error e => .error e
        | .ok (fmt1, vl1) => packBuild values B fmt1 vl1 := by
  induction A with
  | nil => intro fmt vl; simp [packBuild]
  | cons f A' ih =>
    intro fmt vl
    simp only [List.cons_append, packBuild]
    cases values.lookup f.name with
    | none => simp
    | some v =>
      dsimp only
      split_ifs with h1 h2
      · cases asBytes v <;> simp [ih]
      · cases asBytes v <;> simp [ih]
      · exact ih _ _

lemma packBuild_fixed (values : List (String × PyVal)) :
    ∀ (F : List Field) (V : List (String × PyVal)) (fmt : List FmtItem) (vl : List PyVal),
      (∀ f ∈ F, isVarLen f.type = false) → F.length = V.length →
      (∀ p ∈ F.zip V, values.lookup p.1.name = some p.2.2) →
      packBuild values F fmt vl = .ok (fmt, vl ++ V.map Prod.snd) := by
  intro F
  induction F with
  | nil =>
    intro V fmt vl _ hlen _
    have : V = [] := List.length_eq_zero.mp hlen.symm
    subst this
    simp [packBuild]
  | cons f F' ih =>
    intro V fmt vl hfix hlen hlkp
    cases V with
    | nil => simp at hlen
    | cons p V' =>
      have hl : values.lookup f.name = some p.2 := hlkp (f, p) (by simp [List.zip_cons_cons])
      have hf : isVarLen f.type = false := hfix f (by simp)
      have hnv := (isVarLen_false_iff f.type).mp hf
      have h8 : ¬(f.type = .uint8aL8v ∨ f.type = .uint8aL16v) := by
        intro h
        exact hnv (h.elim Or.inl (fun h2 => Or.inr (Or.inl h2)))
      have hg : ¬ f.type = .uint8aGreedy := fun h => hnv (Or.inr (Or.inr h))
      simp only [packBuild, hl]
      rw [if_neg h8, if_neg hg]
      rw [ih V' fmt (vl ++ [p.2]) (fun g hg2 => hfix g (by simp [hg2]))
        (by simpa using hlen)
        (fun q hq => hlkp q (by simp [List.zip_cons_cons, hq]))]
      simp [List.append_assoc]

lemma drop_eq_cons_parts (U : List PyVal) :
    ∀ (i : Nat) (a : PyVal) (t : List PyVal),
      U.drop i = a :: t → U[i]? = some a ∧ U.drop (i + 1) = t := by
  induction U with
  | nil => intro i a t h; simp at h
  | cons x xs ih =>
    intro i a t h
    cases i with
    | zero =>
      simp only [List.drop_zero] at h
      injection h with h1 h2
      subst h1
      subst h2
      exact ⟨by simp, by simp⟩
    | succ n =>
      simp only [List.drop_succ_cons] at h
      obtain ⟨h1, h2⟩ := ih n a t h
      exact ⟨by simpa using h1, by simpa using h2⟩

lemma dictInsert_not_mem (d : List (String × PyVal)) (k : String) (v : PyVal)
    (h : d.lookup k = none) : dictInsert d k v = d ++ [(k, v)] := by
  unfold dictInsert
  rw [h]
  simp

lemma lookup_none_of_not_mem (d : List (String × PyVal)) (k : String)
    (h : k ∉ d.map Prod.fst) : d.lookup k = none := by
  induction d with
  | nil => rfl
  | cons a d' ih =>
    obtain ⟨a1, a2⟩ := a
    simp only [List.map_cons, List.mem_cons, not_or] at h
    simp only [List.lookup, beq_eq_false_iff_ne.mpr h.1]
    exact ih h.2

lemma unpackLoop_fixed_prefix (buffer : List Nat) (exp : Nat) (U : List PyVal) :
    ∀ (F : List Field) (V : List (String × PyVal)) (rest : List Field)
      (vals : List (String × PyVal)) (i : Nat) (tailU : List PyVal),
      (∀ f ∈ F, isVarLen f.type = false) →
      (∀ f ∈ F, ¬ f.type = FieldType.macaddr) → F.length = V.length →
      (∀ p ∈ F.zip V, p.2.1 = p.1.name ∧ validValue p.1 p.2.2 = true) →
      U.drop i = V.map Prod.snd ++ tailU →
      (∀ p ∈ V, vals.lookup p.1 = none) →
      (V.map Prod.fst).Nodup →
      unpackLoop buffer exp U vals i (F ++ rest) =
        unpackLoop buffer exp U (vals ++ V) (i + F.length) rest := by
  intro F
  induction F with
  | nil =>
    intro V rest vals i tailU _ _ hlen _ _ _ _
    have : V = [] := List.length_eq_zero.mp hlen.symm
    subst this
    simp
  | cons f F' ih =>
    intro V rest vals i tailU hfix hnomac hlen hval hU hfresh hnodupV
    cases V with
    | nil => simp at hlen
    | cons p V' =>
      have hU' : U.drop i = p.2 :: (V'.map Prod.snd ++ tailU) := by simpa using hU
      obtain ⟨hGet, hDrop⟩ := drop_eq_cons_parts U i p.2 _ hU'
      have hpk : p.1 = f.name := (hval (f, p) (by simp [List.zip_cons_cons])).1
      have hpv : validValue f p.2 = true := (hval (f, p) (by simp [List.zip_cons_cons])).2
      have hf : isVarLen f.type = false := hfix f (by simp)
      have hnotvar := (isVarLen_false_iff f.type).mp hf
      have hfreshf : vals.lookup f.name = none := by
        rw [← hpk]
        exact hfresh p (by simp)
      have hins : dictInsert vals f.name p.2 = vals ++ [p] := by
        rw [dictInsert_not_mem vals f.name p.2 hfreshf, ← hpk]
      have hrec : unpackLoop buffer exp U (vals ++ [p]) (i + 1) (F' ++ rest) =
          unpackLoop buffer exp U ((vals ++ [p]) ++ V') ((i + 1) + F'.length) rest := by
        refine ih V' rest (vals ++ [p]) (i + 1) tailU
          (fun g hg => hfix g (by simp [hg]))
          (fun g hg => hnomac g (by simp [hg])) (by simpa using hlen)
          (fun q hq => hval q (by simp [List.zip_cons_cons, hq])) hDrop ?_ ?_
        · intro q hq
          have h1 : vals.lookup q.1 = none := hfresh q (by simp [hq])
          have h2 : q.1 ≠ p.1 := by
            have hqin : q.1 ∈ V'.map Prod.fst := List.mem_map_of_mem _ hq
            have hpnotin : p.1 ∉ V'.map Prod.fst := (List.nodup_cons.mp hnodupV).1
            intro hcontra
            rw [hcontra] at hqin
            exact hpnotin hqin
          rw [lookup_append_none vals [p] q.1 h1]
          exact lookup_singleton_ne p q.1 h2
        · exact (List.nodup_cons.mp hnodupV).2
      have hassoc : (vals ++ [p]) ++ V' = vals ++ (p :: V') := by simp
      have harith : (i + 1) + F'.length = i + (F'.length + 1) := by omega
      have hmac : ¬ f.type = .macaddr := hnomac f (by simp)
      simp only [List.cons_append, unpackLoop]
      rw [if_neg hnotvar, if_neg hmac, hGet]
      dsimp only
      rw [hins]
      exact hrec.trans (by rw [hassoc, harith, List.length_cons])

/-! ## Claim theorems -/

/-- Claim C2 (code_bug evidence): feeding the single terminal byte `0x0A` to a
fresh text-protocol parser makes `parse_byte` raise an uncaught
`IndexError` (the trim pass empties the buffer and then indexes
`rx_buffer[-1]`), contradicting the claim that framing errors are always
surfaced via the `on_rx_error` observer with a normal return. -/
theorem c2_parse_error_escapes :
    parse_byte textProtocol 0 (initState textProtocol) 0x0A = .error .indexError := by
  rfl

/-- Claim C4 (code_bug evidence): unpacking the buffer `05 01` against a
single `uint8a-l8v` field (declared blob length 5, one remaining byte)
raises `KeyError`, not a `PerilibProtocolException`: the length-mismatch
raise reads `values[field["name"]]` before that key is ever assigned. -/
theorem c4_length_mismatch_keyerror :
    unpack_values [5, 1] [{ name := "data", type := .uint8aL8v, width := 0 }] none =
      .error .keyError := by
  rfl

/-- Claim C9: feeding `01 05 48 65 6C 6C 6F` to a fresh TLV parser/generator
produces exactly one `on_rx_packet` invocation carrying payload
`{type: 1, length: 5, value: [0x48,0x65,0x6C,0x6C,0x6F]}`, and leaves the
parser idle with an empty buffer. -/
theorem c9_tlv_hello_scenario :
    runBytes tlvProtocol 0 (initState tlvProtocol) [0x01, 0x05, 0x48, 0x65, 0x6C, 0x6C, 0x6F] =
      .ok ({ initState tlvProtocol with rx_packet := some tlvHelloPacket },
        [Event.rxPacket tlvHelloPacket]) := by
  rfl

/-- Claim C3 (counterexample): with a response already pending, `wait_packet`
with a packet name does not fail with `Busy`; it first busy-waits (here the
first `process` step clears the pending response) and then proceeds. -/
theorem c3_busy_counterexample :
    busyDemoState.response_pending ≠ none ∧
      (wait_packet busyDemoStep 2 busyDemoState (some "ping") 5).map Prod.fst ≠
        some WaitOutcome.busy := by
  constructor
  · simp [busyDemoState]
  · decide

/-- Claim C3 (amended): `wait_packet` never returns the `Busy`/`False` result:
the busy-wait loop at the top of the method only exits once nothing is
pending, so the subsequent busy check is dead code; when a response is
pending at entry the call waits instead of failing. -/
theorem c3_wait_packet_never_busy (procStep : PGState → PGState) (fuel : Nat) (s : PGState)
    (name : Option String) (now : Nat) (r : WaitOutcome) (s' : PGState)
    (h : wait_packet procStep fuel s name now = some (r, s')) : r ≠ WaitOutcome.busy := by
  unfold wait_packet at h
  cases hl : waitLoop procStep fuel s with
  | none => rw [hl] at h; exact absurd h (by simp)
  | some s1 =>
    rw [hl] at h
    have hp : s1.response_pending = none := waitLoop_pending_none procStep fuel s s1 hl
    cases name with
    | none =>
      simp only [Option.some.injEq] at h
      have hr : r = (waitTail s1).1 := by rw [h]
      rw [hr]
      exact waitTail_ne_busy s1
    | some n =>
      simp only [hp, ne_eq, not_true_eq_false, if_false, Option.some.injEq] at h
      have hr : r = (waitTail { s1 with response_pending := some n, response_t0 := now }).1 := by
        rw [h]
      rw [hr]
      exact waitTail_ne_busy _

/-- Claim C3 (witness): the amended theorem applied at a concrete input. -/
theorem c3_wait_packet_witness : WaitOutcome.blocked ≠ WaitOutcome.busy := by
  exact c3_wait_packet_never_busy busyDemoStep 2 busyDemoState (some "ping") 5
    WaitOutcome.blocked
    { busyDemoState with response_pending := some "ping", response_t0 := 5 } (by decide)

/-- Claim C5 (counterexample): with no response pending at entry,
`wait_packet()` does not return `None` when a packet was previously
received — it returns that stale `rx_packet`. -/
theorem c5_counterexample :
    idleWithPacketState.response_pending = none ∧
      (wait_packet id 0 idleWithPacketState none 0).map Prod.fst ≠
        some (WaitOutcome.value none) := by
  constructor
  · rfl
  · decide

/-- Claim C5 (amended): with no response pending at entry and no packet name,
`wait_packet` returns immediately (independently of the process step and of
any iteration budget) with the last received packet — `None` only when the
timed-out flag is set or no packet was ever received. -/
theorem c5_wait_packet_returns_last (procStep : PGState → PGState) (fuel : Nat) (s : PGState)
    (now : Nat) (h : s.response_pending = none) :
    wait_packet procStep fuel s none now =
      some (WaitOutcome.value (if s.wait_timed_out then none else s.rx_packet), s) := by
  unfold wait_packet
  rw [waitLoop_of_none procStep fuel s h]
  unfold waitTail
  simp [h]

/-- Claim C5 (witness): the amended theorem applied at a concrete input with a
previously received packet. -/
theorem c5_wait_packet_witness :
    wait_packet id 0 idleWithPacketState none 0 =
      some (WaitOutcome.value (some tlvHelloPacket), idleWithPacketState) := by
  exact c5_wait_packet_returns_last id 0 idleWithPacketState 0 rfl

/-- Claim C6 (counterexample): `pack_values` mutates the supplied packing-info
record whenever the field list contains a variable-length blob: on the TLV
field list the cached record comes back with an extra `"5s"` format code,
and a second `pack_values` call reusing the mutated record raises
`struct.error` instead of producing the same buffer. -/
theorem c6_counterexample :
    pack_values c6Values tlvArgs (some (calculate_packing_info tlvArgs)) =
        .ok ([1, 5, 72, 101, 108, 108, 111], c6MutatedInfo) ∧
      c6MutatedInfo ≠ calculate_packing_info tlvArgs ∧
      pack_values c6Values tlvArgs (some c6MutatedInfo) = .error .structError := by
  refine ⟨rfl, by decide, rfl⟩

lemma packBuild_fmt_of_no_varlen (values : List (String × PyVal)) :
    ∀ (F : List Field) (fmt : List FmtItem) (vl : List PyVal) (fmt' : List FmtItem)
      (vl' : List PyVal), (∀ f ∈ F, isVarLen f.type = false) →
        packBuild values F fmt vl = .ok (fmt', vl') → fmt' = fmt := by
  intro F
  induction F with
  | nil =>
    intro fmt vl fmt' vl' _ h
    simp [packBuild] at h
    exact h.1.symm
  | cons f rest ih =>
    intro fmt vl fmt' vl' hfix h
    have hf : isVarLen f.type = false := hfix f (by simp)
    unfold packBuild at h
    cases hlk : values.lookup f.name with
    | none => rw [hlk] at h; exact absurd h (by simp)
    | some v =>
      rw [hlk] at h
      dsimp only at h
      have h8 : ¬(f.type = .uint8aL8v ∨ f.type = .uint8aL16v) := by
        rintro (h1 | h1) <;> rw [h1] at hf <;> simp [isVarLen] at hf
      have hg : ¬f.type = .uint8aGreedy := by
        intro h1; rw [h1] at hf; simp [isVarLen] at hf
      rw [if_neg h8, if_neg hg] at h
      exact ih fmt (vl ++ [v]) fmt' vl' (fun g hm => hfix g (by simp [hm])) h

/-- Claim C6 (amended): `calculate_packing_info` is a pure function of the
field list (trivially, in this embedding), but `pack_values` leaves the
supplied packing-info record unchanged only when the field list contains no
variable-length blob field (`uint8a-l8v`, `uint8a-l16v`, `uint8a-greedy`);
for such field lists a repeated call with the returned record yields the
identical buffer and record. With a variable-length blob the record is
mutated and reuse fails (see the counterexample). -/
theorem c6_packing_info_reuse (values : List (String × PyVal)) (F : List Field)
    (info : PackingInfo) (buf : List Nat) (info' : PackingInfo)
    (hfix : ∀ f ∈ F, isVarLen f.type = false)
    (h : pack_values values F (some info) = .ok (buf, info')) :
    info' = info ∧ pack_values values F (some info') = .ok (buf, info') := by
  unfold pack_values at h
  simp only [Option.getD_some] at h
  cases hpb : packBuild values F info.pack_format [] with
  | error e => rw [hpb] at h; exact absurd h (by simp)
  | ok p =>
    obtain ⟨fmt, vlist⟩ := p
    rw [hpb] at h
    dsimp only at h
    cases hsp : structPack fmt vlist with
    | error e => rw [hsp] at h; exact absurd h (by simp)
    | ok buf0 =>
      rw [hsp] at h
      simp only [Except.ok.injEq, Prod.mk.injEq] at h
      obtain ⟨hbuf, hinfo⟩ := h
      have hfmt : fmt = info.pack_format :=
        packBuild_fmt_of_no_varlen values F info.pack_format [] fmt vlist hfix hpb
      have hinfo' : info' = info := by
        rw [← hinfo, hfmt]
      refine ⟨hinfo', ?_⟩
      rw [hinfo']
      unfold pack_values
      simp only [Option.getD_some]
      rw [hpb]
      dsimp only
      rw [hsp]
      dsimp only
      rw [hbuf, hinfo, hinfo']

/-- Claim C6 (witness): the amended theorem applied to a fixed-width field
list. -/
theorem c6_packing_info_reuse_witness :
    ({ pack_format := [FmtItem.u8], expected_length := 1 } : PackingInfo) =
        { pack_format := [FmtItem.u8], expected_length := 1 } ∧
      pack_values [("x", PyVal.int 3)] [{ name := "x", type := .uint8, width := 0 }]
          (some { pack_format := [FmtItem.u8], expected_length := 1 }) =
        .ok ([3], { pack_format := [FmtItem.u8], expected_length := 1 }) := by
  exact c6_packing_info_reuse [("x", PyVal.int 3)] [{ name := "x", type := .uint8, width := 0 }]
    { pack_format := [FmtItem.u8], expected_length := 1 } [3]
    { pack_format := [FmtItem.u8], expected_length := 1 } (by decide) rfl

/-- Claim C7 (counterexample): under the text protocol (trim bytes
`{0x0A, 0x0D}`), the frame `41 0D 0D 0A` completes and is handed to
`packet_from_buffer` as `41 0D` — its trailing byte `0x0D` is still in
`trim_bytes`, because the trim pass strips at most one occurrence per trim
byte. -/
theorem c7_counterexample :
    runBytes textProtocol 0 (initState textProtocol) [0x41, 0x0D, 0x0D, 0x0A] =
        .ok ({ initState textProtocol with rx_packet := some textTrimPacket },
          [Event.rxPacket textTrimPacket]) ∧
      textTrimPacket.buffer.getLast? = some 0x0D ∧
      0x0D ∈ textProtocol.trim_bytes := by
  refine ⟨rfl, rfl, by decide⟩

/-- Claim C7 (amended): after `COMPLETE` the parser makes a single pass over
`trim_bytes`, removing at most one trailing occurrence of each trim byte in
set order, so the buffer handed to `packet_from_buffer` is a prefix of the
completed buffer shorter by at most `|trim_bytes|`; a trailing trim byte
may survive when trailing trim bytes repeat. -/
theorem c7_trim_single_pass (trim buf t : List Nat) (h : trimLoop trim buf = .ok t) :
    t = buf.take t.length ∧ buf.length ≤ t.length + trim.length := by
  induction trim generalizing buf with
  | nil =>
    unfold trimLoop at h
    simp only [Except.ok.injEq] at h
    subst h
    simp
  | cons b rest ih =>
    unfold trimLoop at h
    cases hl : buf.getLast? with
    | none => rw [hl] at h; exact absurd h (by simp)
    | some x =>
      rw [hl] at h
      dsimp only at h
      have hne : buf ≠ [] := by
        intro hnil; rw [hnil] at hl; simp at hl
      have hpos : 0 < buf.length := List.length_pos.mpr hne
      by_cases hx : x = b
      · rw [if_pos hx] at h
        obtain ⟨h1, h2⟩ := ih buf.dropLast h
        have hdl : buf.dropLast = buf.take (buf.length - 1) := List.dropLast_eq_take buf
        have hdln : buf.dropLast.length = buf.length - 1 := List.length_dropLast buf
        have hlen1 := congrArg List.length h1
        rw [List.length_take] at hlen1
        have htlen : t.length ≤ buf.dropLast.length := by omega
        constructor
        · have hle : t.length ≤ buf.length - 1 := by omega
          calc t = (buf.dropLast).take t.length := h1
            _ = (buf.take (buf.length - 1)).take t.length := by rw [hdl]
            _ = buf.take (min t.length (buf.length - 1)) := List.take_take _ _ _
            _ = buf.take t.length := by rw [Nat.min_eq_left hle]
        · rw [hdln] at h2
          simp only [List.length_cons]
          omega
      · rw [if_neg hx] at h
        obtain ⟨h1, h2⟩ := ih buf h
        exact ⟨h1, by simp only [List.length_cons]; omega⟩

/-- Claim C7 (witness): the amended theorem applied to the text protocol's
trim pass on the completed frame `41 0D 0D 0A`. -/
theorem c7_trim_single_pass_witness :
    ([65, 13] : List Nat) = ([65, 13, 13, 10] : List Nat).take 2 ∧
      ([65, 13, 13, 10] : List Nat).length ≤ 2 + 2 := by
  exact c7_trim_single_pass [10, 13] [65, 13, 13, 10] [65, 13] rfl

/-- Claim C8: if a backspace byte arrives while a frame is in progress
(status `STARTING` or `IN_PROGRESS`; `COMPLETE` is transient and never
survives a `parse_byte` call) with `n > 0` buffered bytes, the call returns
normally with no observer invocation and the buffer shrunk to its first
`n - 1` bytes (the backspace byte and the preceding byte both removed);
if the parser is idle with an empty buffer, the byte is discarded and the
parser is idle afterwards. -/
theorem c8_backspace_erases_one (P : Protocol) (now : Nat) (s : PGState) (b : Nat)
    (hb : b ∈ P.backspace_bytes) :
    ((s.parser_status = .STARTING ∨ s.parser_status = .IN_PROGRESS) →
      0 < s.rx_buffer.length →
      ∃ s', parse_byte P now s b = .ok (s', []) ∧ s'.rx_buffer = s.rx_buffer.dropLast ∧
        s'.rx_buffer.length = s.rx_buffer.length - 1) ∧
    (s.parser_status = .IDLE → s.rx_buffer = [] →
      ∃ s', parse_byte P now s b = .ok (s', []) ∧ s'.rx_buffer = [] ∧
        s'.parser_status = .IDLE) := by
  have hbne : 0 < P.backspace_bytes.length :=
    List.length_pos.mpr (List.ne_nil_of_mem hb)
  have hback : 0 < P.backspace_bytes.length ∧ b ∈ P.backspace_bytes := ⟨hbne, hb⟩
  constructor
  · intro hst hbuf
    have h1 : ¬ ({ s with rx_buffer := s.rx_buffer ++ [b] } : PGState).parser_status = .IDLE := by
      rcases hst with h | h <;> simp [h]
    have hlen : 1 < ({ s with rx_buffer := s.rx_buffer ++ [b] } : PGState).rx_buffer.length := by
      simp only [List.length_append, List.length_cons, List.length_nil]
      omega
    have hEdit : parseEdit P { s with rx_buffer := s.rx_buffer ++ [b] } b =
        (if s.rx_buffer.dropLast.length = 0 then
          { s with rx_buffer := s.rx_buffer.dropLast, parser_status := .IDLE }
        else { s with rx_buffer := s.rx_buffer.dropLast }) := by
      unfold parseEdit
      rw [if_pos hback]
      dsimp only
      rw [if_pos hlen]
      simp only [List.dropLast_concat]
    unfold parse_byte
    dsimp only
    rw [parseStart_of_not_idle P now _ h1, if_pos h1, hEdit]
    by_cases hemp : s.rx_buffer.dropLast.length = 0
    · rw [if_pos hemp,
        parseFinish_of_not_complete P _ (by simp)]
      exact ⟨_, rfl, rfl, by simp [List.length_dropLast]⟩
    · rw [if_neg hemp,
        parseFinish_of_not_complete P _ (by rcases hst with h | h <;> simp [h])]
      exact ⟨_, rfl, rfl, by simp [List.length_dropLast]⟩
  · intro hst hbuf
    have hS1 : ({ s with rx_buffer := s.rx_buffer ++ [b] } : PGState).parser_status = .IDLE := hst
    unfold parse_byte
    dsimp only
    rw [hbuf]
    simp only [List.nil_append]
    unfold parseStart
    rw [if_pos (show ({ s with rx_buffer := [b] } : PGState).parser_status = .IDLE from hst)]
    dsimp only
    by_cases hS : P.start_test [b] = .IDLE
    · rw [if_neg (by simp [hS])]
      rw [if_neg (by simp [hS])]
      exact ⟨_, rfl, rfl, rfl⟩
    · by_cases harm : ¬ P.start_test [b] = .IDLE ∧ ¬ s.incoming_packet_timeout = none
      · rw [if_pos harm, if_pos (by simpa using hS)]
        have hEdit2 : parseEdit P
            { s with rx_buffer := [b], parser_status := P.start_test [b], incoming_t0 := now } b =
            { s with rx_buffer := [], parser_status := .IDLE, incoming_t0 := now } := by
          unfold parseEdit
          rw [if_pos hback]
          simp
        rw [hEdit2, parseFinish_of_not_complete P _ (by simp)]
        exact ⟨_, rfl, rfl, rfl⟩
      · rw [if_neg harm, if_pos (by simpa using hS)]
        have hEdit2 : parseEdit P
            { s with rx_buffer := [b], parser_status := P.start_test [b] } b =
            { s with rx_buffer := [], parser_status := .IDLE } := by
          unfold parseEdit
          rw [if_pos hback]
          simp
        rw [hEdit2, parseFinish_of_not_complete P _ (by simp)]
        exact ⟨_, rfl, rfl, rfl⟩

/-- Claim C8 (witness): the theorem applied to the text protocol with the
buffer `41 42` and the backspace byte `0x08`. -/
theorem c8_backspace_witness :
    ∃ s', parse_byte textProtocol 0
        { initState textProtocol with rx_buffer := [65, 66], parser_status := .IN_PROGRESS }
        0x08 = .ok (s', []) ∧
      s'.rx_buffer = ([65, 66] : List Nat).dropLast ∧ s'.rx_buffer.length = 1 := by
  exact (c8_backspace_erases_one textProtocol 0
    { initState textProtocol with rx_buffer := [65, 66], parser_status := .IN_PROGRESS }
    0x08 (by decide)).1 (Or.inr rfl) (by decide)

/-- Claim C10: if the protocol leaves `response_packet_timeout` at the base
class default `None` and `send_packet` transmits a packet whose definition
carries a non-`None` `response_required`, the response timer is armed
anyway, and every subsequent `process()` call with an empty queue raises
`TypeError` from the `elapsed > None` comparison (until the pending
response is cleared). -/
theorem c10_none_timeout_typeerror (gen : String → Except PErr Packet) (writeOk : Bool)
    (s : PGState) (name : String) (now : Nat) (pkt : Packet) (d : PacketDef) (rr : String)
    (s' : PGState) (res : Bool) (evs : List Event)
    (hT : s.response_packet_timeout = none) (hQ : s.rx_deque = []) (hI : s.incoming_t0 = 0)
    (hN : 0 < now) (hgen : gen name = .ok pkt) (hdef : pkt.definition = some d)
    (hrr : d.response_required = some (some rr))
    (hsend : send_packet gen writeOk s name now = .ok (s', res, evs)) :
    s'.response_t0 = now ∧ ∀ (P : Protocol) (now2 : Nat),
      process P s' now2 = .error .typeError := by
  unfold send_packet at hsend
  rw [hgen] at hsend
  dsimp only at hsend
  rw [hdef] at hsend
  dsimp only at hsend
  rw [hrr] at hsend
  simp only [ne_eq, reduceCtorEq, not_false_eq_true, if_true, ite_true, Except.ok.injEq,
    Prod.mk.injEq] at hsend
  obtain ⟨hs', _, _⟩ := hsend
  have hs'T0 : s'.response_t0 = now := by rw [← hs']
  have hs'Q : s'.rx_deque = [] := by rw [← hs']; exact hQ
  have hs'I : s'.incoming_t0 = 0 := by rw [← hs']; exact hI
  have hs'T : s'.response_packet_timeout = none := by rw [← hs']; exact hT
  refine ⟨hs'T0, ?_⟩
  intro P now2
  unfold process
  rw [hs'Q]
  unfold drainGo
  dsimp only
  simp only [hs'I, ne_eq, not_true_eq_false, if_false, ite_false, hs'T0, hs'T]
  have : ¬ now = 0 := by omega
  simp only [this, not_false_eq_true, if_true, ite_true, pyGT]

/-- Claim C10 (witness): concrete `ping`/`pong` send with no response timeout;
the state after sending has the timer armed and `process` raises. -/
theorem c10_none_timeout_witness :
    c10SentState.response_t0 = 7 ∧
      process tlvProtocol c10SentState 99 = .error .typeError := by
  have h := c10_none_timeout_typeerror (fun _ => .ok pingPacket) true (initState tlvProtocol)
    "ping" 7 pingPacket pingDef "pong" c10SentState true [Event.txPacket pingPacket]
    rfl rfl rfl (by decide) rfl rfl rfl rfl
  exact ⟨h.1, h.2 tlvProtocol 99⟩


set_option maxRecDepth 16000 in
/-- Claim C1 (amended): the pack/unpack round-trip holds for every field list
whose variable-length blob fields (`uint8a-l8v`, `uint8a-l16v`,
`uint8a-greedy`) occur only in the final position, with distinct field
names, and every valid value map keyed by the field names in order: packing
succeeds and unpacking the packed buffer returns the original value map.
The field list must contain no `macaddr` field and no variable-length blob
before the last position: both restrictions are necessary, as the
counterexample shows — a mid-list blob makes packing raise `struct.error`
(the extra `"%ds"` code lands at the end of the format string), and a
`macaddr` field unpacks to a Python `list` while packing consumed `bytes`,
so the unpacked map never equals the original. -/
theorem c1_round_trip_last_var_blob (F : List Field) (V : List (String × PyVal))
    (hlen : F.length = V.length)
    (hval : ∀ p ∈ F.zip V, p.2.1 = p.1.name ∧ validValue p.1 p.2.2 = true)
    (hnodup : (F.map Field.name).Nodup)
    (hmac : ∀ f ∈ F, ¬ f.type = FieldType.macaddr)
    (hlast : ∀ f ∈ F.dropLast, isVarLen f.type = false) :
    ∃ buf info, pack_values V F none = .ok (buf, info) ∧
      unpack_values buf F none = .ok V := by
  rcases List.eq_nil_or_concat F with hF | ⟨F₀, g, hF⟩
  case inl =>
    subst hF
    have : V = [] := List.length_eq_zero.mp hlen.symm
    subst this
    exact ⟨[], _, rfl, rfl⟩
  rw [List.concat_eq_append] at hF
  subst hF
  have hVlen : V.length = F₀.length + 1 := by
    rw [← hlen]
    simp
  obtain ⟨V₀, q, hV, hV₀len⟩ : ∃ V₀ q, V = V₀ ++ [q] ∧ V₀.length = F₀.length := by
    rcases List.eq_nil_or_concat V with h | ⟨V₀, q, h⟩
    · rw [h] at hVlen
      simp at hVlen
    · rw [List.concat_eq_append] at h
      refine ⟨V₀, q, h, ?_⟩
      rw [h] at hVlen
      simp at hVlen
      omega
  subst hV
  have hzip : (F₀ ++ [g]).zip (V₀ ++ [q]) = F₀.zip V₀ ++ [(g, q)] := by
    rw [List.zip_append hV₀len.symm]
    rfl
  have hvalF₀ : ∀ p ∈ F₀.zip V₀, p.2.1 = p.1.name ∧ validValue p.1 p.2.2 = true := by
    intro p hp
    exact hval p (by rw [hzip]; exact List.mem_append_left _ hp)
  have hvalg : q.1 = g.name ∧ validValue g q.2 = true :=
    hval (g, q) (by rw [hzip]; simp)
  have hfixF₀ : ∀ f ∈ F₀, isVarLen f.type = false := by
    intro f hf
    exact hlast f (by rw [List.dropLast_concat]; exact hf)
  have hmacF₀ : ∀ f ∈ F₀, ¬ f.type = FieldType.macaddr := by
    intro f hf
    exact hmac f (List.mem_append_left _ hf)
  have hnames : (F₀ ++ [g]).map Field.name = F₀.map Field.name ++ [g.name] := by simp
  have hnodup₀ : (F₀.map Field.name).Nodup ∧ g.name ∉ F₀.map Field.name := by
    rw [hnames] at hnodup
    rw [List.nodup_append] at hnodup
    refine ⟨hnodup.1, ?_⟩
    intro hmem
    exact hnodup.2.2 hmem (by simp)
  have hkeys₀ : V₀.map Prod.fst = F₀.map Field.name :=
    keys_eq_names F₀ V₀ hV₀len.symm (fun p hp => (hvalF₀ p hp).1)
  have hlkp : ∀ p ∈ (F₀ ++ [g]).zip (V₀ ++ [q]), (V₀ ++ [q]).lookup p.1.name = some p.2.2 :=
    lookup_of_zip _ _ hlen (fun p hp => (hval p hp).1) hnodup
  by_cases hvg : isVarLen g.type = false
  · -- every field is fixed-width
    have hfixAll : ∀ f ∈ F₀ ++ [g], isVarLen f.type = false := by
      intro f hf
      rcases List.mem_append.mp hf with h | h
      · exact hfixF₀ f h
      · simp at h
        subst h
        exact hvg
    obtain ⟨enc, hsp, hlenc, hsu⟩ := fixedBlock_roundtrip (F₀ ++ [g]) (V₀ ++ [q]) hfixAll hlen hval
    have hpb := packBuild_fixed (V₀ ++ [q]) (F₀ ++ [g]) (V₀ ++ [q])
      (calculate_packing_info (F₀ ++ [g])).pack_format [] hfixAll hlen hlkp
    have hpack : pack_values (V₀ ++ [q]) (F₀ ++ [g]) none =
        .ok (enc, calculate_packing_info (F₀ ++ [g])) := by
      unfold pack_values
      simp only [Option.getD_none]
      rw [hpb]
      dsimp only
      rw [List.nil_append, hsp]
    have hexplen : ¬ enc.length < (calculate_packing_info (F₀ ++ [g])).expected_length := by
      omega
    have hU0 : (V₀ ++ [q]).map Prod.snd ++ ([] : List PyVal) = (V₀ ++ [q]).map Prod.snd := by simp
    have hloop := unpackLoop_fixed_prefix enc
      (calculate_packing_info (F₀ ++ [g])).expected_length ((V₀ ++ [q]).map Prod.snd)
      (F₀ ++ [g]) (V₀ ++ [q]) [] [] 0 [] hfixAll hmac hlen hval (by simp)
      (fun p _ => rfl) (by rw [keys_eq_names _ _ hlen (fun p hp => (hval p hp).1)]; exact hnodup)
    have hunpack : unpack_values enc (F₀ ++ [g]) none = .ok (V₀ ++ [q]) := by
      unfold unpack_values
      simp only [Option.getD_none]
      rw [if_neg hexplen]
      rw [show enc.take (calculate_packing_info (F₀ ++ [g])).expected_length = enc from
        by rw [← hlenc, List.take_length]]
      rw [hsu]
      dsimp only
      rw [List.append_nil] at hloop
      rw [hloop]
      simp [unpackLoop]
    exact ⟨enc, _, hpack, hunpack⟩
  · -- the final field is a variable-length blob
    have hcases : g.type = .uint8aL8v ∨ g.type = .uint8aL16v ∨ g.type = .uint8aGreedy := by
      cases hgt : g.type <;> rw [hgt] at hvg <;> simp [isVarLen] at hvg <;> simp
    obtain ⟨enc₀, hsp₀, hlen₀, hsu₀⟩ := fixedBlock_roundtrip F₀ V₀ hfixF₀ hV₀len.symm hvalF₀
    have hlkpg : (V₀ ++ [q]).lookup g.name = some q.2 :=
      hlkp (g, q) (by rw [hzip]; simp)
    have hcalc := calculate_packing_info_append F₀ [g]
    have hfreshV₀ : V₀.lookup g.name = none :=
      lookup_none_of_not_mem V₀ g.name (by rw [hkeys₀]; exact hnodup₀.2)
    have hpb₀ := packBuild_fixed (V₀ ++ [q]) F₀ V₀
      (calculate_packing_info (F₀ ++ [g])).pack_format [] hfixF₀ hV₀len.symm
      (fun p hp => hlkp p (by rw [hzip]; exact List.mem_append_left _ hp))
    have happB := packBuild_append (V₀ ++ [q]) F₀ [g]
      (calculate_packing_info (F₀ ++ [g])).pack_format []
    rw [hpb₀] at happB
    dsimp only at happB
    simp only [List.nil_append] at happB
    have hVkeysNodup : (V₀.map Prod.fst).Nodup := by rw [hkeys₀]; exact hnodup₀.1
    have hq2cases := hvalg.2
    rcases hcases with hg | hg | hg
    · -- uint8a-l8v
      obtain ⟨bs, hbs, hblt⟩ : ∃ bs, q.2 = .bytes bs ∧ bs.length < 256 := by
        cases h2 : q.2 with
        | bytes bs =>
          rw [h2] at hq2cases
          simp [validValue, hg] at hq2cases
          exact ⟨bs, rfl, hq2cases.1⟩
        | int j => rw [h2] at hq2cases; simp [validValue, hg] at hq2cases
        | f32 n => rw [h2] at hq2cases; simp [validValue, hg] at hq2cases
        | pylist vs => rw [h2] at hq2cases; simp [validValue, hg] at hq2cases
      have hitem : fieldItems g = [.u8] := by simp [fieldItems, hg, typeFmt]
      have hwid : fieldWidth g = 1 := by simp [fieldWidth, hg, typeWidth]
      have hfmtF : (calculate_packing_info (F₀ ++ [g])).pack_format =
          (calculate_packing_info F₀).pack_format ++ [.u8] := by
        rw [hcalc]
        simp [calculate_packing_info, hitem]
      have hexpF : (calculate_packing_info (F₀ ++ [g])).expected_length =
          (calculate_packing_info F₀).expected_length + 1 := by
        rw [hcalc]
        simp [calculate_packing_info, hwid]
      have hpbg : packBuild (V₀ ++ [q]) [g]
          (calculate_packing_info (F₀ ++ [g])).pack_format (V₀.map Prod.snd) =
          .ok ((calculate_packing_info (F₀ ++ [g])).pack_format ++ [.str bs.length],
            V₀.map Prod.snd ++ [.int bs.length, .bytes bs]) := by
        simp only [packBuild, hlkpg]
        rw [if_pos (Or.inl hg), hbs]
        rfl
      rw [hpbg] at happB
      have hcond : (0 : Int) ≤ (bs.length : Int) ∧ (bs.length : Int) < 256 :=
        ⟨by exact_mod_cast Nat.zero_le _, by exact_mod_cast hblt⟩
      have he1 : encodeFmt .u8 (.int bs.length) = .ok (toLEBytes 1 bs.length) := by
        simp only [encodeFmt]
        rw [if_pos hcond, Int.toNat_natCast]
      have he2 : encodeFmt (.str bs.length) (.bytes bs) = .ok bs := by
        simp only [encodeFmt]
        rw [List.take_length, Nat.sub_self]
        simp
      have htail : structPack [FmtItem.u8, FmtItem.str bs.length]
          [PyVal.int bs.length, PyVal.bytes bs] =
          .ok (toLEBytes 1 bs.length ++ bs) :=
        structPack_pair _ _ _ _ _ _ he1 he2
      have hspFull : structPack
          ((calculate_packing_info (F₀ ++ [g])).pack_format ++ [.str bs.length])
          (V₀.map Prod.snd ++ [.int bs.length, .bytes bs]) =
          .ok (enc₀ ++ (toLEBytes 1 bs.length ++ bs)) := by
        rw [hfmtF, List.append_assoc]
        have hx := structPack_append (calculate_packing_info F₀).pack_format
          (V₀.map Prod.snd) enc₀ [.u8, .str bs.length]
          [.int bs.length, .bytes bs] hsp₀
        rw [htail] at hx
        exact hx
      have hpack : pack_values (V₀ ++ [q]) (F₀ ++ [g]) none =
          .ok (enc₀ ++ (toLEBytes 1 bs.length ++ bs),
            { pack_format :=
                (calculate_packing_info (F₀ ++ [g])).pack_format ++ [.str bs.length]
              expected_length := (calculate_packing_info (F₀ ++ [g])).expected_length }) := by
        unfold pack_values
        simp only [Option.getD_none]
        rw [happB]
        dsimp only
        rw [hspFull]
      have hpreflen : (toLEBytes 1 bs.length).length = 1 := toLEBytes_length _ _
      have hheadlen : (enc₀ ++ toLEBytes 1 bs.length).length =
          (calculate_packing_info (F₀ ++ [g])).expected_length := by
        simp only [List.length_append, hlen₀, hpreflen, hexpF]
      have hbufassoc : enc₀ ++ (toLEBytes 1 bs.length ++ bs) =
          (enc₀ ++ toLEBytes 1 bs.length) ++ bs := by
        rw [List.append_assoc]
      have hdecp : structUnpack [FmtItem.u8] (toLEBytes 1 bs.length) =
          .ok [PyVal.int bs.length] := by
        rw [structUnpack_single .u8 _ (by rw [hpreflen]; rfl)]
        simp [decodeOne, fromLEBytes_toLEBytes 1 bs.length (by simp only [pow_one]; exact hblt)]
      have hsuFull : structUnpack (calculate_packing_info (F₀ ++ [g])).pack_format
          (enc₀ ++ toLEBytes 1 bs.length) = .ok (V₀.map Prod.snd ++ [PyVal.int bs.length]) := by
        rw [hfmtF]
        have hx := structUnpack_append (calculate_packing_info F₀).pack_format enc₀
          (V₀.map Prod.snd) [.u8] (toLEBytes 1 bs.length) hsu₀
        rw [hdecp] at hx
        exact hx
      have hV₀maplen : (V₀.map Prod.snd).length = F₀.length := by
        simp [hV₀len]
      have hloop := unpackLoop_fixed_prefix ((enc₀ ++ toLEBytes 1 bs.length) ++ bs)
        (calculate_packing_info (F₀ ++ [g])).expected_length
        (V₀.map Prod.snd ++ [PyVal.int bs.length]) F₀ V₀ [g] [] 0 [PyVal.int bs.length]
        hfixF₀ hmacF₀ hV₀len.symm hvalF₀ (by simp) (fun p _ => rfl) hVkeysNodup
      have hloop2 : unpackLoop ((enc₀ ++ toLEBytes 1 bs.length) ++ bs)
          (calculate_packing_info (F₀ ++ [g])).expected_length
          (V₀.map Prod.snd ++ [PyVal.int bs.length]) [] 0 (F₀ ++ [g]) =
          unpackLoop ((enc₀ ++ toLEBytes 1 bs.length) ++ bs)
            (calculate_packing_info (F₀ ++ [g])).expected_length
            (V₀.map Prod.snd ++ [PyVal.int bs.length]) V₀ F₀.length [g] := by
        simpa using hloop
      have hUdrop : (V₀.map Prod.snd ++ [PyVal.int bs.length]).drop F₀.length =
          [PyVal.int bs.length] := List.drop_left' hV₀maplen
      obtain ⟨hGetg, -⟩ := drop_eq_cons_parts _ F₀.length (PyVal.int bs.length) [] hUdrop
      have hdropbs : ((enc₀ ++ toLEBytes 1 bs.length) ++ bs).drop
          (calculate_packing_info (F₀ ++ [g])).expected_length = bs :=
        List.drop_left' hheadlen
      have hnotmis : ¬ ((bs.length : Int) +
          ((calculate_packing_info (F₀ ++ [g])).expected_length : Int) ≠
          (((enc₀ ++ toLEBytes 1 bs.length) ++ bs).length : Int)) := by
        simp only [List.length_append, hlen₀, hpreflen, hexpF]
        push_cast
        omega
      have hunpack : unpack_values (enc₀ ++ (toLEBytes 1 bs.length ++ bs)) (F₀ ++ [g]) none =
          .ok (V₀ ++ [q]) := by
        unfold unpack_values
        simp only [Option.getD_none]
        rw [hbufassoc]
        rw [if_neg (by rw [List.length_append, hheadlen]; omega)]
        rw [List.take_left' hheadlen]
        rw [hsuFull]
        dsimp only
        rw [hloop2]
        simp only [unpackLoop]
        rw [if_pos (Or.inl hg), if_neg (by rw [hg]; simp), hGetg]
        dsimp only
        rw [if_neg hnotmis, hdropbs]
        rw [dictInsert_not_mem V₀ g.name _ hfreshV₀, ← hvalg.1, ← hbs]
      exact ⟨_, _, hpack, hunpack⟩
    · -- uint8a-l16v
      obtain ⟨bs, hbs, hblt⟩ : ∃ bs, q.2 = .bytes bs ∧ bs.length < 65536 := by
        cases h2 : q.2 with
        | bytes bs =>
          rw [h2] at hq2cases
          simp [validValue, hg] at hq2cases
          exact ⟨bs, rfl, hq2cases.1⟩
        | int j => rw [h2] at hq2cases; simp [validValue, hg] at hq2cases
        | f32 n => rw [h2] at hq2cases; simp [validValue, hg] at hq2cases
        | pylist vs => rw [h2] at hq2cases; simp [validValue, hg] at hq2cases
      have hitem : fieldItems g = [.u16] := by simp [fieldItems, hg, typeFmt]
      have hwid : fieldWidth g = 2 := by simp [fieldWidth, hg, typeWidth]
      have hfmtF : (calculate_packing_info (F₀ ++ [g])).pack_format =
          (calculate_packing_info F₀).pack_format ++ [.u16] := by
        rw [hcalc]
        simp [calculate_packing_info, hitem]
      have hexpF : (calculate_packing_info (F₀ ++ [g])).expected_length =
          (calculate_packing_info F₀).expected_length + 2 := by
        rw [hcalc]
        simp [calculate_packing_info, hwid]
      have hpbg : packBuild (V₀ ++ [q]) [g]
          (calculate_packing_info (F₀ ++ [g])).pack_format (V₀.map Prod.snd) =
          .ok ((calculate_packing_info (F₀ ++ [g])).pack_format ++ [.str bs.length],
            V₀.map Prod.snd ++ [.int bs.length, .bytes bs]) := by
        simp only [packBuild, hlkpg]
        rw [if_pos (Or.inr hg), hbs]
        rfl
      rw [hpbg] at happB
      have hcond : (0 : Int) ≤ (bs.length : Int) ∧ (bs.length : Int) < 65536 :=
        ⟨by exact_mod_cast Nat.zero_le _, by exact_mod_cast hblt⟩
      have he1 : encodeFmt .u16 (.int bs.length) = .ok (toLEBytes 2 bs.length) := by
        simp only [encodeFmt]
        rw [if_pos hcond, Int.toNat_natCast]
      have he2 : encodeFmt (.str bs.length) (.bytes bs) = .ok bs := by
        simp only [encodeFmt]
        rw [List.take_length, Nat.sub_self]
        simp
      have htail : structPack [FmtItem.u16, FmtItem.str bs.length]
          [PyVal.int bs.length, PyVal.bytes bs] =
          .ok (toLEBytes 2 bs.length ++ bs) :=
        structPack_pair _ _ _ _ _ _ he1 he2
      have hspFull : structPack
          ((calculate_packing_info (F₀ ++ [g])).pack_format ++ [.str bs.length])
          (V₀.map Prod.snd ++ [.int bs.length, .bytes bs]) =
          .ok (enc₀ ++ (toLEBytes 2 bs.length ++ bs)) := by
        rw [hfmtF, List.append_assoc]
        have hx := structPack_append (calculate_packing_info F₀).pack_format
          (V₀.map Prod.snd) enc₀ [.u16, .str bs.length]
          [.int bs.length, .bytes bs] hsp₀
        rw [htail] at hx
        exact hx
      have hpack : pack_values (V₀ ++ [q]) (F₀ ++ [g]) none =
          .ok (enc₀ ++ (toLEBytes 2 bs.length ++ bs),
            { pack_format :=
                (calculate_packing_info (F₀ ++ [g])).pack_format ++ [.str bs.length]
              expected_length := (calculate_packing_info (F₀ ++ [g])).expected_length }) := by
        unfold pack_values
        simp only [Option.getD_none]
        rw [happB]
        dsimp only
        rw [hspFull]
      have hpreflen : (toLEBytes 2 bs.length).length = 2 := toLEBytes_length _ _
      have hheadlen : (enc₀ ++ toLEBytes 2 bs.length).length =
          (calculate_packing_info (F₀ ++ [g])).expected_length := by
        simp only [List.length_append, hlen₀, hpreflen, hexpF]
      have hbufassoc : enc₀ ++ (toLEBytes 2 bs.length ++ bs) =
          (enc₀ ++ toLEBytes 2 bs.length) ++ bs := by
        rw [List.append_assoc]
      have hdecp : structUnpack [FmtItem.u16] (toLEBytes 2 bs.length) =
          .ok [PyVal.int bs.length] := by
        rw [structUnpack_single .u16 _ (by rw [hpreflen]; rfl)]
        simp [decodeOne, fromLEBytes_toLEBytes 2 bs.length (by norm_num; omega)]
      have hsuFull : structUnpack (calculate_packing_info (F₀ ++ [g])).pack_format
          (enc₀ ++ toLEBytes 2 bs.length) = .ok (V₀.map Prod.snd ++ [PyVal.int bs.length]) := by
        rw [hfmtF]
        have hx := structUnpack_append (calculate_packing_info F₀).pack_format enc₀
          (V₀.map Prod.snd) [.u16] (toLEBytes 2 bs.length) hsu₀
        rw [hdecp] at hx
        exact hx
      have hV₀maplen : (V₀.map Prod.snd).length = F₀.length := by
        simp [hV₀len]
      have hloop := unpackLoop_fixed_prefix ((enc₀ ++ toLEBytes 2 bs.length) ++ bs)
        (calculate_packing_info (F₀ ++ [g])).expected_length
        (V₀.map Prod.snd ++ [PyVal.int bs.length]) F₀ V₀ [g] [] 0 [PyVal.int bs.length]
        hfixF₀ hmacF₀ hV₀len.symm hvalF₀ (by simp) (fun p _ => rfl) hVkeysNodup
      have hloop2 : unpackLoop ((enc₀ ++ toLEBytes 2 bs.length) ++ bs)
          (calculate_packing_info (F₀ ++ [g])).expected_length
          (V₀.map Prod.snd ++ [PyVal.int bs.length]) [] 0 (F₀ ++ [g]) =
          unpackLoop ((enc₀ ++ toLEBytes 2 bs.length) ++ bs)
            (calculate_packing_info (F₀ ++ [g])).expected_length
            (V₀.map Prod.snd ++ [PyVal.int bs.length]) V₀ F₀.length [g] := by
        simpa using hloop
      have hUdrop : (V₀.map Prod.snd ++ [PyVal.int bs.length]).drop F₀.length =
          [PyVal.int bs.length] := List.drop_left' hV₀maplen
      obtain ⟨hGetg, -⟩ := drop_eq_cons_parts _ F₀.length (PyVal.int bs.length) [] hUdrop
      have hdropbs : ((enc₀ ++ toLEBytes 2 bs.length) ++ bs).drop
          (calculate_packing_info (F₀ ++ [g])).expected_length = bs :=
        List.drop_left' hheadlen
      have hnotmis : ¬ ((bs.length : Int) +
          ((calculate_packing_info (F₀ ++ [g])).expected_length : Int) ≠
          (((enc₀ ++ toLEBytes 2 bs.length) ++ bs).length : Int)) := by
        simp only [List.length_append, hlen₀, hpreflen, hexpF]
        push_cast
        omega
      have hunpack : unpack_values (enc₀ ++ (toLEBytes 2 bs.length ++ bs)) (F₀ ++ [g]) none =
          .ok (V₀ ++ [q]) := by
        unfold unpack_values
        simp only [Option.getD_none]
        rw [hbufassoc]
        rw [if_neg (by rw [List.length_append, hheadlen]; omega)]
        rw [List.take_left' hheadlen]
        rw [hsuFull]
        dsimp only
        rw [hloop2]
        simp only [unpackLoop]
        rw [if_pos (Or.inr (Or.inl hg)), if_neg (by rw [hg]; simp), hGetg]
        dsimp only
        rw [if_neg hnotmis, hdropbs]
        rw [dictInsert_not_mem V₀ g.name _ hfreshV₀, ← hvalg.1, ← hbs]
      exact ⟨_, _, hpack, hunpack⟩
    · -- uint8a-greedy
      obtain ⟨bs, hbs⟩ : ∃ bs, q.2 = .bytes bs := by
        cases h2 : q.2 with
        | bytes bs => exact ⟨bs, rfl⟩
        | int j => rw [h2] at hq2cases; simp [validValue, hg] at hq2cases
        | f32 n => rw [h2] at hq2cases; simp [validValue, hg] at hq2cases
        | pylist vs => rw [h2] at hq2cases; simp [validValue, hg] at hq2cases
      have hitem : fieldItems g = [] := by simp [fieldItems, hg, typeFmt]
      have hwid : fieldWidth g = 0 := by simp [fieldWidth, hg, typeWidth]
      have hfmtF : (calculate_packing_info (F₀ ++ [g])).pack_format =
          (calculate_packing_info F₀).pack_format := by
        rw [hcalc]
        simp [calculate_packing_info, hitem]
      have hexpF : (calculate_packing_info (F₀ ++ [g])).expected_length =
          (calculate_packing_info F₀).expected_length := by
        rw [hcalc]
        simp [calculate_packing_info, hwid]
      have hpbg : packBuild (V₀ ++ [q]) [g]
          (calculate_packing_info (F₀ ++ [g])).pack_format (V₀.map Prod.snd) =
          .ok ((calculate_packing_info (F₀ ++ [g])).pack_format ++ [.str bs.length],
            V₀.map Prod.snd ++ [.bytes bs]) := by
        simp only [packBuild, hlkpg]
        rw [if_neg (by rw [hg]; simp), if_pos hg, hbs]
        rfl
      rw [hpbg] at happB
      have he2 : encodeFmt (.str bs.length) (.bytes bs) = .ok bs := by
        simp only [encodeFmt]
        rw [List.take_length, Nat.sub_self]
        simp
      have htail : structPack [FmtItem.str bs.length] [PyVal.bytes bs] = .ok bs :=
        structPack_single _ _ _ he2
      have hspFull : structPack
          ((calculate_packing_info (F₀ ++ [g])).pack_format ++ [.str bs.length])
          (V₀.map Prod.snd ++ [.bytes bs]) = .ok (enc₀ ++ bs) := by
        rw [hfmtF]
        have hx := structPack_append (calculate_packing_info F₀).pack_format
          (V₀.map Prod.snd) enc₀ [.str bs.length] [.bytes bs] hsp₀
        rw [htail] at hx
        exact hx
      have hpack : pack_values (V₀ ++ [q]) (F₀ ++ [g]) none =
          .ok (enc₀ ++ bs,
            { pack_format :=
                (calculate_packing_info (F₀ ++ [g])).pack_format ++ [.str bs.length]
              expected_length := (calculate_packing_info (F₀ ++ [g])).expected_length }) := by
        unfold pack_values
        simp only [Option.getD_none]
        rw [happB]
        dsimp only
        rw [hspFull]
      have hheadlen : enc₀.length = (calculate_packing_info (F₀ ++ [g])).expected_length := by
        rw [hlen₀, hexpF]
      have hsuFull : structUnpack (calculate_packing_info (F₀ ++ [g])).pack_format enc₀ =
          .ok (V₀.map Prod.snd) := by
        rw [hfmtF]
        exact hsu₀
      have hloop := unpackLoop_fixed_prefix (enc₀ ++ bs)
        (calculate_packing_info (F₀ ++ [g])).expected_length
        (V₀.map Prod.snd) F₀ V₀ [g] [] 0 []
        hfixF₀ hmacF₀ hV₀len.symm hvalF₀ (by simp) (fun p _ => rfl) hVkeysNodup
      have hloop2 : unpackLoop (enc₀ ++ bs)
          (calculate_packing_info (F₀ ++ [g])).expected_length
          (V₀.map Prod.snd) [] 0 (F₀ ++ [g]) =
          unpackLoop (enc₀ ++ bs)
            (calculate_packing_info (F₀ ++ [g])).expected_length
            (V₀.map Prod.snd) V₀ F₀.length [g] := by
        simpa using hloop
      have hdropbs : (enc₀ ++ bs).drop
          (calculate_packing_info (F₀ ++ [g])).expected_length = bs :=
        List.drop_left' hheadlen
      have hunpack : unpack_values (enc₀ ++ bs) (F₀ ++ [g]) none = .ok (V₀ ++ [q]) := by
        unfold unpack_values
        simp only [Option.getD_none]
        rw [if_neg (by rw [List.length_append]; omega)]
        rw [List.take_left' hheadlen]
        rw [hsuFull]
        dsimp only
        rw [hloop2]
        simp only [unpackLoop]
        rw [if_pos (Or.inr (Or.inr hg)), if_pos hg, hdropbs]
        rw [dictInsert_not_mem V₀ g.name _ hfreshV₀, ← hvalg.1, ← hbs]
      exact ⟨_, _, hpack, hunpack⟩

/-- Claim C1 (counterexample): for the valid value map
`{a: [0x05], b: 7}` over the field list `[{a: uint8a-l8v}, {b: uint8}]` —
a variable-length blob before another field — `pack_values` raises
`struct.error` (the extra `"%ds"` format code is appended at the end of the
format string, out of position), so `unpack_values(pack_values(V, F), F)`
cannot equal `V`. The claim also fails for any field list with a `macaddr`
field: packing the valid value map `{mac: bytes([1,2,3,4,5,6])}` succeeds,
but unpacking returns the Python list `[1,2,3,4,5,6]`, which is not equal
to the `bytes` value packed. -/
theorem c1_round_trip_counterexample :
    (validFor c1BadFields c1BadValues = true ∧
      pack_values c1BadValues c1BadFields none = .error .structError ∧
      roundTripB c1BadFields c1BadValues = false) ∧
    (validFor c1MacFields c1MacValues = true ∧
      unpack_values [1, 2, 3, 4, 5, 6] c1MacFields none =
        .ok [("mac", .pylist [1, 2, 3, 4, 5, 6])] ∧
      roundTripB c1MacFields c1MacValues = false) := by
  refine ⟨⟨by decide, rfl, by decide⟩, ⟨by decide, rfl, by decide⟩⟩

/-- Claim C1 (witness): the amended round-trip theorem applied to the TLV
payload field list and the value map of scenario S1. -/
theorem c1_round_trip_witness :
    ∃ buf info, pack_values c6Values tlvArgs none = .ok (buf, info) ∧
      unpack_values buf tlvArgs none = .ok c6Values := by
  exact c1_round_trip_last_var_blob tlvArgs c6Values (by decide) (by decide) (by decide)
    (by decide) (by decide)

end Perilib
